import Mathlib

/-!
Verification of the tiered memory subsystem of the `cursor-systems`
repository against its natural-language specification.

The JavaScript source is embedded shallowly:

* strings are `List Char` (`Str`); JS string methods (`toLowerCase`,
  `includes`, `substring`, `split`, `replace`) are modelled as executable
  functions on `List Char`;
* JS numbers appearing as importances / sizes are `Int`, timestamps are
  `Nat`, and SQLite `REAL` columns (confidence, strength) are `ℚ`
  (only comparisons are ever performed on them in the source);
* `Array.prototype.sort` (stable per the ECMAScript spec) is modelled by a
  stable insertion sort `sortBy`;
* SQLite state is an explicit list of rows threaded through every
  operation, and each operation takes the current `Date.now()` value as an
  explicit `now : Nat` argument;
* code that catches internal exceptions and returns a safe default is
  modelled with `Option`/`Except` results.
-/

/-- JS strings as lists of characters. -/
abbrev Str := List Char

/-- ASCII lower-casing of one character (SQLite `LIKE` and JS
`toLowerCase` agree on ASCII, which is all the fixtures use). -/
def lowChar (c : Char) : Char :=
  if 'A' ≤ c ∧ c ≤ 'Z' then Char.ofNat (c.toNat + 32) else c

/-- Case-insensitive (ASCII) character comparison. -/
def eqCI (a b : Char) : Bool := lowChar a = lowChar b

/-- JS regex `\s` (the source only ever feeds it spaces, tabs and
newlines). -/
def isWS (c : Char) : Bool := c = ' ' ∨ c = '\t' ∨ c = '\n' ∨ c = '\r'

/-- JS regex `\w`: `[A-Za-z0-9_]`. -/
def isWordChar (c : Char) : Bool :=
  ('a' ≤ c ∧ c ≤ 'z') ∨ ('A' ≤ c ∧ c ≤ 'Z') ∨ ('0' ≤ c ∧ c ≤ '9') ∨ c = '_'

/-- All suffixes of a list, longest first (structurally recursive so that
concrete instances evaluate inside `decide`). -/
def sufs : Str → List Str
  | [] => [[]]
  | c :: cs => (c :: cs) :: sufs cs

/-- Case-sensitive "starts with", JS `String.prototype.startsWith`. -/
def startsWith : Str → Str → Bool
  | [], _ => true
  | _ :: _, [] => false
  | a :: as, b :: bs => a = b && startsWith as bs

/-- Case-sensitive substring test, JS `String.prototype.includes`. -/
def hasSub (needle hay : Str) : Bool := (sufs hay).any (fun s => startsWith needle s)

/-- Case-insensitive "starts with". -/
def startsWithCI : Str → Str → Bool
  | [], _ => true
  | _ :: _, [] => false
  | a :: as, b :: bs => eqCI a b && startsWithCI as bs

/-- Case-insensitive substring test. -/
def hasSubCI (needle hay : Str) : Bool := (sufs hay).any (fun s => startsWithCI needle s)

/-- JS `String.prototype.substring(0, n)`. -/
def takeStr (n : Nat) (s : Str) : Str := s.take n

/-- Little-endian base-10 digits, fuel-based so it is structurally
recursive (the fuel `n` always suffices since `n / 10 < n`). -/
def digitsAux : Nat → Nat → List Nat
  | _, 0 => []
  | 0, _ => []
  | fuel + 1, n + 1 => ((n + 1) % 10) :: digitsAux fuel ((n + 1) / 10)

/-- Little-endian base-10 digits of `n`. -/
def decDigits (n : Nat) : List Nat := digitsAux n n

/-- Value of a little-endian digit list. -/
def undigits : List Nat → Nat
  | [] => 0
  | d :: ds => d + 10 * undigits ds

/-- The character for one decimal digit (`'0'`–`'9'`). -/
def digitCh (d : Nat) : Char := Char.ofNat (48 + d)

/-- Decimal rendering of a natural number, as JS template interpolation
(`${n}`) produces for integer-valued numbers. -/
def natStr (n : Nat) : Str :=
  if n = 0 then ['0'] else ((decDigits n).reverse.map digitCh)

/-! ### Stable sorting

`Array.prototype.sort` with a numeric comparator is stable (ECMAScript
2019+); any stable sort is a faithful model, and we use insertion sort
because it is structurally recursive and therefore evaluates under
`decide`. `le x y = true` means `x` may be placed before `y`; on ties an
earlier element stays before a later one. -/

def insertBy (le : α → α → Bool) (x : α) : List α → List α
  | [] => [x]
  | y :: ys => if le x y then x :: y :: ys else y :: insertBy le x ys

def sortBy (le : α → α → Bool) : List α → List α
  | [] => []
  | x :: xs => insertBy le x (sortBy le xs)

/-- Sortedness with respect to a boolean "may come before" relation. -/
abbrev SortedB (le : α → α → Bool) (l : List α) : Prop :=
  l.Pairwise (fun a b => le a b = true)

/-! ### ShortTermMemory (`.cursor/rules/200-...` runtime, `part_002`)

`addWorkingContext` / `pruneMemory` operate on the `working_context`
array of context items. -/

/-- One working-context item (`contextItem` in `addWorkingContext`). -/
structure WItem where
  id : Str
  topic : Str
  details : Str
  importance : Int
  createdAt : Nat
  expires : Option Int
deriving DecidableEq, Repr

/-- The filter `item => !item.expires || item.expires > now`: an item with
`expires` absent (`null`) or `0` (both falsy) is kept. -/
def keepUnexpired (now : Int) (it : WItem) : Bool :=
  match it.expires with
  | none => true
  | some e => if e = 0 then true else decide (now < e)

/-- Ascending-importance comparator `(a, b) => a.importance - b.importance`. -/
def impAsc (a b : WItem) : Bool := decide (a.importance ≤ b.importance)

/-- Descending-importance comparator `(a, b) => b.importance - a.importance`. -/
def impDesc (a b : WItem) : Bool := decide (b.importance ≤ a.importance)

/-- `ShortTermMemory.pruneMemory(targetSize)`. `memoryLimit` is
`this.metadata.memory_limit` (1000 by default); `targetSize = null` or `0`
is falsy, so the limit is used instead. Returns the new working context
and the number of removed items. -/
def pruneMemory (now : Int) (memoryLimit : Int) (targetSize : Option Int)
    (wc : List WItem) : List WItem × Nat :=
  let target : Int :=
    match targetSize with
    | none => memoryLimit
    | some t => if t = 0 then memoryLimit else t
  if (wc.length : Int) ≤ target then (wc, 0)
  else
    let filtered := wc.filter (keepUnexpired now)
    let removed := wc.length - filtered.length
    if target < (filtered.length : Int) then
      let sortedAsc := sortBy impAsc filtered
      let excess := filtered.length - target.toNat
      let kept := sortBy impDesc (sortedAsc.drop excess)
      (kept, removed + excess)
    else (filtered, removed)

/-! ### MemoryDB (`.cursor/db/memory-system.js`), semantic section

SQLite state is a list of `semantic_knowledge` rows plus a list of
`knowledge_relationships` rows, in insertion (rowid) order. The
`memory_queries` log table is written but never read by the operations
under verification and is omitted. `JSON.parse` round-tripping of
`content`/`metadata` does not change which rows are returned and is left
out (contents are kept as the stored strings). -/

structure SemRow where
  id : Str
  category : Str
  topic : Str
  content : Str
  confidence : ℚ
  timestamp : Nat
  lastAccessed : Nat
  source : Option Str
  metadata : Option Str
deriving DecidableEq, Repr

structure RelRow where
  relId : Nat
  sourceId : Str
  targetId : Str
  relType : Str
  strength : ℚ
  timestamp : Nat
  metadata : Option Str
deriving DecidableEq, Repr

structure MemDB where
  sem : List SemRow
  rels : List RelRow
deriving DecidableEq, Repr

/-- `replace(/\s+/g, "_")`: each maximal whitespace run becomes one
underscore. The boolean is "previous character was whitespace". -/
def squeeze : Bool → Str → Str
  | _, [] => []
  | prev, c :: cs =>
    if isWS c then (if prev then squeeze true cs else '_' :: squeeze true cs)
    else c :: squeeze false cs

def sanitizeWS (s : Str) : Str := squeeze false s

/-- The generated id `` `${category}_${topic}_${Date.now()}`.replace(/\s+/g, "_") ``. -/
def mintId (category topic : Str) (now : Nat) : Str :=
  sanitizeWS (category ++ '_' :: topic ++ '_' :: natStr now)

/-- `UPDATE semantic_knowledge SET last_accessed = ? WHERE id = ?`. -/
def touch (id : Str) (now : Nat) (db : MemDB) : MemDB :=
  { db with sem := db.sem.map (fun r => if r.id = id then { r with lastAccessed := now } else r) }

/-- `semantic.getKnowledge(category, topic)`: first matching row, with the
`updateLastAccessed` side effect; the returned row is the one read before
the touch. -/
def getKnowledge (cat top : Str) (now : Nat) (db : MemDB) : Option SemRow × MemDB :=
  match db.sem.find? (fun r => r.category = cat && r.topic = top) with
  | none => (none, db)
  | some r => (some r, touch r.id now db)

/-- `semantic.getById(id)`, with the `updateLastAccessed` side effect. -/
def getById (id : Str) (now : Nat) (db : MemDB) : Option SemRow × MemDB :=
  match db.sem.find? (fun r => r.id = id) with
  | none => (none, db)
  | some r => (some r, touch id now db)

structure KOpts where
  id : Option Str := none
  confidence : Option ℚ := none
  source : Option Str := none
  metadata : Option Str := none

/-- `semantic.storeKnowledge(category, topic, content, options)`.
`options.id || mint` and `options.confidence || 1.0` use JS falsiness
(empty string / 0 fall back to the default). A `PRIMARY KEY` violation on
insert is caught by the surrounding `try` and yields `null` with the
database unchanged. -/
def storeKnowledge (now : Nat) (cat top content : Str) (opts : KOpts) (db : MemDB) :
    Option Str × MemDB :=
  let id : Str :=
    match opts.id with
    | some s => if s = [] then mintId cat top now else s
    | none => mintId cat top now
  let confidence : ℚ :=
    match opts.confidence with
    | some c => if c = 0 then 1 else c
    | none => 1
  let p := getKnowledge cat top now db
  match p.1 with
  | some _ =>
    (some id, { p.2 with sem := p.2.sem.map (fun r =>
      if r.category = cat && r.topic = top then
        { r with content := content, confidence := confidence, timestamp := now,
                 source := opts.source, metadata := opts.metadata }
      else r) })
  | none =>
    if p.2.sem.any (fun r => r.id = id) then (none, p.2)
    else
      (some id, { p.2 with sem := p.2.sem ++
        [{ id := id, category := cat, topic := top, content := content,
           confidence := confidence, timestamp := now, lastAccessed := now,
           source := opts.source, metadata := opts.metadata }] })

/-- SQLite `LIKE` pattern matching, case-insensitive on ASCII; `%` matches
any run, `_` exactly one character. -/
def likeMatch : Str → Str → Bool
  | [], t => t.isEmpty
  | c :: ps, t =>
    if c = '%' then (sufs t).any (fun s => likeMatch ps s)
    else if c = '_' then
      match t with
      | [] => false
      | _ :: ts => likeMatch ps ts
    else
      match t with
      | [] => false
      | d :: ts => eqCI c d && likeMatch ps ts

structure SearchOpts where
  category : Option Str := none
  limit : Option Nat := none

/-- `ORDER BY confidence DESC, last_accessed DESC`. -/
def rankLe (a b : SemRow) : Bool :=
  decide (b.confidence < a.confidence) ||
    (decide (a.confidence = b.confidence) && decide (b.lastAccessed ≤ a.lastAccessed))

/-- The effective `LIMIT`: `options.limit || 10` (0 is falsy). -/
def effLimit (opts : SearchOpts) : Nat :=
  match opts.limit with
  | some l => if l = 0 then 10 else l
  | none => 10

/-- `semantic.search(query, options)`: `WHERE topic LIKE '%q%' OR content
LIKE '%q%'`, optional category filter, sort, limit, then the
`updateLastAccessed` side effect on every returned row. -/
def search (now : Nat) (q : Str) (opts : SearchOpts) (db : MemDB) : List SemRow × MemDB :=
  let pat : Str := '%' :: (q ++ ['%'])
  let matches1 := db.sem.filter (fun r => likeMatch pat r.topic || likeMatch pat r.content)
  let matches2 :=
    match opts.category with
    | none => matches1
    | some c => matches1.filter (fun r => r.category = c)
  let rows := (sortBy rankLe matches2).take (effLimit opts)
  (rows, rows.foldl (fun d r => touch r.id now d) db)

structure ROpts where
  strength : Option ℚ := none
  metadata : Option Str := none

/-- `semantic.getRelationship(sourceId, targetId, relationshipType)`
(read-only). -/
def getRelationship (src tgt rtype : Str) (db : MemDB) : Option RelRow :=
  db.rels.find? (fun r => r.sourceId = src && r.targetId = tgt && r.relType = rtype)

/-- `semantic.createRelationship(sourceId, targetId, relationshipType,
options)`: both endpoints are looked up with `getById` (touching them when
found); a missing endpoint returns `false` and writes nothing; otherwise
the (source, target, type) triple is upserted. -/
def createRelationship (now : Nat) (src tgt rtype : Str) (opts : ROpts) (db : MemDB) :
    Bool × MemDB :=
  let ps := getById src now db
  let pt := getById tgt now ps.2
  if ps.1.isNone || pt.1.isNone then (false, pt.2)
  else
    let strength : ℚ :=
      match opts.strength with
      | some v => if v = 0 then 1 else v
      | none => 1
    match getRelationship src tgt rtype pt.2 with
    | some _ =>
      (true, { pt.2 with rels := pt.2.rels.map (fun r =>
        if r.sourceId = src && r.targetId = tgt && r.relType = rtype then
          { r with strength := strength, timestamp := now, metadata := opts.metadata }
        else r) })
    | none =>
      (true, { pt.2 with rels := pt.2.rels ++
        [{ relId := pt.2.rels.length, sourceId := src, targetId := tgt, relType := rtype,
           strength := strength, timestamp := now, metadata := opts.metadata }] })

/-- One row of the `getRelationships` result: the relationship columns
plus the other endpoint's category/topic from the join. -/
structure RelView where
  rel : RelRow
  otherCategory : Option Str
  otherTopic : Option Str
deriving DecidableEq, Repr

structure GetRelOpts where
  direction : Option Str := none
  relationshipType : Option Str := none

/-- `ORDER BY kr.strength DESC, kr.timestamp DESC`. -/
def relRank (a b : RelView) : Bool :=
  decide (b.rel.strength < a.rel.strength) ||
    (decide (a.rel.strength = b.rel.strength) && decide (b.rel.timestamp ≤ a.rel.timestamp))

def lookupCatTopic (db : MemDB) (id : Str) : Option (Str × Str) :=
  (db.sem.find? (fun r => r.id = id)).map (fun r => (r.category, r.topic))

/-- `semantic.getRelationships(nodeId, options)`: the directional variants
use an inner `JOIN` on the other endpoint (rows with a dangling endpoint
are dropped); the default both-directions variant uses `LEFT JOIN`s, so
the other endpoint's columns may be null. -/
def getRelationships (nodeId : Str) (opts : GetRelOpts) (db : MemDB) : List RelView :=
  let base : List RelView :=
    if opts.direction = some ("outgoing".data) then
      (db.rels.filter (fun r => r.sourceId = nodeId)).filterMap (fun r =>
        (lookupCatTopic db r.targetId).map (fun ct => RelView.mk r (some ct.1) (some ct.2)))
    else if opts.direction = some ("incoming".data) then
      (db.rels.filter (fun r => r.targetId = nodeId)).filterMap (fun r =>
        (lookupCatTopic db r.sourceId).map (fun ct => RelView.mk r (some ct.1) (some ct.2)))
    else
      (db.rels.filter (fun r => r.sourceId = nodeId || r.targetId = nodeId)).map (fun r =>
        let other :=
          if r.sourceId = nodeId then lookupCatTopic db r.targetId
          else lookupCatTopic db r.sourceId
        RelView.mk r (other.map Prod.fst) (other.map Prod.snd))
  let base2 :=
    match opts.relationshipType with
    | none => base
    | some t => base.filter (fun v => v.rel.relType = t)
  sortBy relRank base2

/-! ### The in-memory rule-script family

`001-system-core.mdc` creates `MEMORY_SYSTEM`, `303-semantic-memory.mdc`
adds the object-based semantic functions (`storeKnowledge(topic,
knowledge)`, `searchKnowledge(query, limit)`), and
`105-cms-specialist-agent.mdc` adds `MEMORY_CONTROLLER`, whose calls
match those signatures. -/

/-- A knowledge object as built by the controller
(`{category, content, importance, source, timestamp}`). -/
structure Knowledge where
  category : Str
  content : Str
  importance : Str
  source : Str
  timestamp : Nat
deriving DecidableEq, Repr

/-- `MEMORY_SYSTEM.semantic`: topic → (id → knowledge), both levels as
insertion-ordered association lists. Property keys generated as
`sm_${Date.now()}_${random}` are modelled by a monotone `Nat` counter —
no claim inspects the id text, only that fresh ids do not collide. -/
structure Sem303 where
  buckets : List (Str × List (Nat × Knowledge))
deriving DecidableEq, Repr

def lookupBucket (s : Sem303) (topic : Str) : Option (List (Nat × Knowledge)) :=
  (s.buckets.find? (fun b => b.1 = topic)).map Prod.snd

/-- JS property assignment `obj[k] = v`: overwrite when present, append a
new key otherwise. -/
def assignProp (idv : Nat) (k : Knowledge) (b : List (Nat × Knowledge)) :
    List (Nat × Knowledge) :=
  if b.any (fun e => e.1 = idv) then b.map (fun e => if e.1 = idv then (e.1, k) else e)
  else b ++ [(idv, k)]

/-- `MEMORY_SYSTEM.storeKnowledge(topic, knowledge)` from
`303-semantic-memory.mdc`: ensure the topic bucket exists, give the
knowledge a fresh id and store it under that id. -/
def store303 (s : Sem303) (nextId : Nat) (topic : Str) (k : Knowledge) : Sem303 × Nat :=
  match s.buckets.find? (fun b => b.1 = topic) with
  | some _ =>
    (⟨s.buckets.map (fun b => if b.1 = topic then (b.1, assignProp nextId k b.2) else b)⟩,
     nextId + 1)
  | none => (⟨s.buckets ++ [(topic, [(nextId, k)])]⟩, nextId + 1)

/-- One `searchKnowledge` result: `{...knowledge, topic}`. -/
structure Hit where
  topic : Str
  know : Knowledge
deriving DecidableEq, Repr

def lowStr (s : Str) : Str := s.map lowChar

/-- The match test of `searchKnowledge`:
`(knowledge.content && content.toLowerCase().includes(q.toLowerCase())) ||
topic.toLowerCase().includes(q.toLowerCase())` (an empty content string is
falsy). -/
def hitMatch (q topic : Str) (k : Knowledge) : Bool :=
  (!(k.content.isEmpty) && hasSub (lowStr q) (lowStr k.content)) ||
    hasSub (lowStr q) (lowStr topic)

/-- Inner loop of `searchKnowledge` over one topic bucket; after each push
the result length is checked against the limit and the loop breaks. -/
def search303Bucket (q topic : Str) (lim : Nat) :
    List (Nat × Knowledge) → List Hit → List Hit
  | [], acc => acc
  | (_, k) :: rest, acc =>
    if hitMatch q topic k then
      let acc2 := acc ++ [Hit.mk topic k]
      if lim ≤ acc2.length then acc2 else search303Bucket q topic lim rest acc2
    else search303Bucket q topic lim rest acc

/-- Outer loop of `searchKnowledge` over the topic buckets. -/
def search303Go (q : Str) (lim : Nat) :
    List (Str × List (Nat × Knowledge)) → List Hit → List Hit
  | [], acc => acc
  | (topic, bucket) :: rest, acc =>
    let acc2 := search303Bucket q topic lim bucket acc
    if lim ≤ acc2.length then acc2 else search303Go q lim rest acc2

/-- `MEMORY_SYSTEM.searchKnowledge(query, limit = 10)` from
`303-semantic-memory.mdc`. -/
def searchKnowledge303 (s : Sem303) (q : Str) (lim : Nat) : List Hit :=
  search303Go q lim s.buckets []

/-- One episodic conversation entry. -/
structure Conv where
  role : Str
  content : Str
  timestamp : Nat
  sessionId : Option Str := none
  metaType : Option Str := none
deriving DecidableEq, Repr

def dummyConv : Conv := { role := [], content := [], timestamp := 0 }

/-- `ORDER BY timestamp DESC` comparator. -/
def tsDesc (a b : Conv) : Bool := decide (b.timestamp ≤ a.timestamp)

/-- `ORDER BY timestamp` ascending comparator
(`(a, b) => a.timestamp - b.timestamp`). -/
def tsAsc (a b : Conv) : Bool := decide (a.timestamp ≤ b.timestamp)

/-- `getRecentConversations(count)`: the `count` most recent entries,
most recent first. -/
def recentConvs (n : Nat) (episodic : List Conv) : List Conv :=
  (sortBy tsDesc episodic).take n

/-- The enriched context object built by `enrichContext`. -/
structure EnrichedCtx where
  query : Str
  timestamp : Nat
  sessionId : Str
  workingContext : List WItem
  recentConversations : List Conv
  relevantKnowledge : List Hit
deriving DecidableEq, Repr

/-- A short-term context value, as stored by
`MEMORY_SYSTEM.storeContext`. -/
inductive JVal where
  | str (s : Str)
  | num (n : Int)
  | items (l : List WItem)
  | enr (e : EnrichedCtx)
deriving DecidableEq, Repr

/-- The state the controller scripts operate on: the short-term context
map, the in-memory semantic store with its id counter, and the episodic
log. -/
structure MdcState where
  contexts : List (Str × JVal)
  semantic : Sem303
  nextId : Nat
  episodic : List Conv
deriving DecidableEq, Repr

def getCtx (st : MdcState) (k : Str) : Option JVal :=
  (st.contexts.find? (fun e => e.1 = k)).map Prod.snd

/-- `storeContext(name, value)`: property assignment on the context
object. -/
def storeCtx (st : MdcState) (k : Str) (v : JVal) : MdcState :=
  if st.contexts.any (fun e => e.1 = k) then
    { st with contexts := st.contexts.map (fun e => if e.1 = k then (e.1, v) else e) }
  else { st with contexts := st.contexts ++ [(k, v)] }

/-- `getContext("working_context") || []`. We consider states whose
`working_context` entry is the array maintained by `addWorkingContext`
(any other non-null value would make the controller's `for..of` throw and
its `catch` return the safe default). -/
def wcOf (st : MdcState) : List WItem :=
  match getCtx st ("working_context".data) with
  | some (JVal.items l) => l
  | _ => []

/-- The importance string written by `consolidateMemory`:
`context.importance >= 5 ? "high" : "medium"` (only evaluated for items
with importance ≥ 4). -/
def consImportance (imp : Int) : Str :=
  if 5 ≤ imp then "high".data else "medium".data

/-- The knowledge object `consolidateMemory` builds for one important
working-context item. -/
def consKnow (now : Nat) (item : WItem) : Knowledge :=
  { category := "working_context".data, content := item.details,
    importance := consImportance item.importance,
    source := "short_term_memory".data, timestamp := now }

/-- `MEMORY_SYSTEM.storeKnowledge(topic, knowledge)` applied to the
controller state: store into the semantic store and advance the id
counter. -/
def storeK (t : Str) (k : Knowledge) (st : MdcState) : MdcState :=
  let p := store303 st.semantic st.nextId t k
  { st with semantic := p.1, nextId := p.2 }

/-- One iteration of `consolidateMemory`'s loop over the working
context: items with importance ≥ 4 are stored into the semantic store
under their topic. -/
def consStep (now : Nat) (acc : MdcState) (item : WItem) : MdcState :=
  if 4 ≤ item.importance then storeK item.topic (consKnow now item) acc else acc

/-- The first phase of `consolidateMemory`: if a non-empty conversation
summary context exists, a system-authored session-summary entry is
appended to the episodic log. -/
def consSummaryStep (now : Nat) (st : MdcState) : MdcState :=
  let summary : Option Str :=
    match getCtx st ("conversation_summary".data) with
    | some (JVal.str s) => if s.isEmpty then none else some s
    | _ => none
  let sessionId : Str :=
    match getCtx st ("session_id".data) with
    | some (JVal.str s) => if s.isEmpty then ("session_".data ++ natStr now) else s
    | _ => "session_".data ++ natStr now
  match summary with
  | some s =>
    { st with episodic := st.episodic ++
      [{ role := "system".data, content := "Session summary: ".data ++ s,
         sessionId := some sessionId, timestamp := now, metaType := some ("summary".data) }] }
  | none => st

/-- `MEMORY_CONTROLLER.consolidateMemory()` from
`105-cms-specialist-agent.mdc`. -/
def consolidateMemory (now : Nat) (st : MdcState) : Bool × MdcState :=
  (true, (wcOf st).foldl (consStep now) (consSummaryStep now st))

def codeVocab (c : Str) : Bool :=
  hasSub ("function".data) c || hasSub ("class".data) c || hasSub ("variable".data) c

def errVocab (c : Str) : Bool :=
  hasSub ("error".data) c || hasSub ("bug".data) c || hasSub ("issue".data) c

/-- The `code_patterns` knowledge object built for one conversation. -/
def codeKnow (now : Nat) (conv : Conv) : Knowledge :=
  { category := "code_snippets".data,
    content := "Code discussion: ".data ++ takeStr 100 conv.content ++ "...".data,
    importance := "medium".data, source := "conversation".data, timestamp := now }

/-- The `troubleshooting` knowledge object built for one conversation. -/
def errKnow (now : Nat) (conv : Conv) : Knowledge :=
  { category := "errors".data,
    content := "Error discussion: ".data ++ takeStr 100 conv.content ++ "...".data,
    importance := "high".data, source := "conversation".data, timestamp := now }

/-- Processing of one conversation inside `extractKnowledge`. -/
def extractOne (now : Nat) (acc : MdcState) (conv : Conv) : MdcState :=
  if conv.role = "system".data || conv.content.isEmpty then acc
  else
    let acc1 :=
      if codeVocab conv.content then storeK ("code_patterns".data) (codeKnow now conv) acc
      else acc
    if errVocab conv.content then storeK ("troubleshooting".data) (errKnow now conv) acc1
    else acc1

/-- `MEMORY_CONTROLLER.extractKnowledge()`: scan
`getRecentConversations(20)`, skipping system/empty entries. -/
def extractKnowledge (now : Nat) (st : MdcState) : Bool × MdcState :=
  let recent := recentConvs 20 st.episodic
  if recent.isEmpty then (false, st)
  else (true, recent.foldl (extractOne now) st)

/-- Helper for `splitWS`: the second argument is the current token,
reversed. -/
def splitWSAux : Str → Str → List Str
  | [], cur => if cur.isEmpty then [] else [cur.reverse]
  | c :: cs, cur =>
    if isWS c then (if cur.isEmpty then splitWSAux cs [] else cur.reverse :: splitWSAux cs [])
    else splitWSAux cs (c :: cur)

/-- Split on whitespace runs, dropping empty tokens. -/
def splitWS (s : Str) : List Str := splitWSAux s []

/-- Keyword extraction in `enrichContext`:
`query.toLowerCase().replace(/[^\w\s]/g, '').split(/\s+/).filter(w =>
w.length > 3)`. (JS `split(/\s+/)` can produce one empty leading token,
which the length filter removes; `splitWS` drops empties directly.) -/
def keywordsOf (q : Str) : List Str :=
  (splitWS ((lowStr q).filter (fun c => isWordChar c || isWS c))).filter
    (fun w => 3 < w.length)

/-- `MEMORY_CONTROLLER.enrichContext(query)`: assemble the enriched
context (working context, 5 recent conversations, per-keyword
`searchKnowledge(keyword, 2)` hits) and store it back under the key
`"enriched_context"`. -/
def enrichContext (now : Nat) (st : MdcState) (q : Str) : EnrichedCtx × MdcState :=
  let sessionId : Str :=
    match getCtx st ("session_id".data) with
    | some (JVal.str s) => if s.isEmpty then ("session_".data ++ natStr now) else s
    | _ => "session_".data ++ natStr now
  let relevant := (keywordsOf q).foldl (fun acc kw =>
    let results := searchKnowledge303 st.semantic kw 2
    if results.isEmpty then acc else acc ++ results) []
  let ec : EnrichedCtx :=
    { query := q, timestamp := now, sessionId := sessionId,
      workingContext := wcOf st, recentConversations := recentConvs 5 st.episodic,
      relevantKnowledge := relevant }
  (ec, storeCtx st ("enriched_context".data) (JVal.enr ec))

/-! ### Error-propagation model for `processInteraction` and
`addWorkingContext`

The claim under test is about exception propagation, so each
`MEMORY_SYSTEM` call the controller makes is abstracted as an
`Except`-valued oracle: an arbitrary environment chooses, per call,
either a result or a thrown exception. The controller's `try`/`catch`

structure is then modelled exactly; the theorem quantifies over all
environments, i.e. over every way the internal steps can fail. -/

structure MemApi where
  storeContext : Str → JVal → Except Str Bool
  getContext : Str → Except Str (Option JVal)
  storeConversation : Conv → Except Str Bool
  getRecentConversations : Nat → Except Str (List Conv)
  searchKnowledge : Str → Nat → Except Str (List Hit)
  storeKnowledge : Str → Knowledge → Except Str Nat

/-- The body of `enrichContext` run against the oracle; its own
`try`/`catch` converts any failure into the bare `{ query }` object, so
the function is total. -/
def enrichContextE (api : MemApi) (now : Nat) (q : Str) : EnrichedCtx :=
  let body : Except Str EnrichedCtx := do
    let wcv ← api.getContext ("working_context".data)
    let wc := match wcv with | some (JVal.items l) => l | _ => []
    let recent ← api.getRecentConversations 5
    let kws := keywordsOf q
    let relevant ← kws.foldlM (fun acc kw => do
      let results ← api.searchKnowledge kw 2
      pure (if results.isEmpty then acc else acc ++ results)) []
    let ec : EnrichedCtx :=
      { query := q, timestamp := now, sessionId := "session_".data ++ natStr now,
        workingContext := wc, recentConversations := recent, relevantKnowledge := relevant }
    let _ ← api.storeContext ("enriched_context".data) (JVal.enr ec)
    pure ec
  match body with
  | Except.ok ec => ec
  | Except.error _ =>
    { query := q, timestamp := now, sessionId := [], workingContext := [],
      recentConversations := [], relevantKnowledge := [] }

/-- `consolidateMemory` / `extractKnowledge` run against the oracle; their
own `try`/`catch` blocks convert any failure into `false`. -/
def consolidateCaught (api : MemApi) (now : Nat) : Bool :=
  let body : Except Str Bool := do
    let wcv ← api.getContext ("working_context".data)
    let wc := match wcv with | some (JVal.items l) => l | _ => []
    let _ ← wc.foldlM (fun n item =>
      if 4 ≤ item.importance then do
        let _ ← api.storeKnowledge item.topic
          { category := "working_context".data, content := item.details,
            importance := consImportance item.importance,
            source := "short_term_memory".data, timestamp := now }
        pure (n + 1)
      else pure n) (0 : Nat)
    pure true
  match body with
  | Except.ok b => b
  | Except.error _ => false

def extractCaught (api : MemApi) (now : Nat) : Bool :=
  let body : Except Str Bool := do
    let recent ← api.getRecentConversations 20
    if recent.isEmpty then pure false
    else do
      let _ ← recent.foldlM (fun n conv =>
        if conv.role = "system".data || conv.content.isEmpty then pure n
        else do
          let n1 ← (if codeVocab conv.content then do
              let _ ← api.storeKnowledge ("code_patterns".data)
                { category := "code_snippets".data,
                  content := "Code discussion: ".data ++ takeStr 100 conv.content ++ "...".data,
                  importance := "medium".data, source := "conversation".data, timestamp := now }
              pure (n + 1)
            else pure n)
          if errVocab conv.content then do
            let _ ← api.storeKnowledge ("troubleshooting".data)
              { category := "errors".data,
                content := "Error discussion: ".data ++ takeStr 100 conv.content ++ "...".data,
                importance := "high".data, source := "conversation".data, timestamp := now }
            pure (n1 + 1)
          else pure n1) (0 : Nat)
      pure true
  match body with
  | Except.ok b => b
  | Except.error _ => false

/-- The placeholder response synthesized at step 4 of
`processInteraction`. -/
def responseText (q : Str) (n : Nat) : Str :=
  "Response to \"".data ++ takeStr 30 q ++ "...\" based on ".data ++ natStr n ++
    " knowledge fragments".data

/-- The generic fallback produced by the `catch` of
`processInteraction`. -/
def fallbackText (q : Str) : Str :=
  "I encountered an issue while processing your query: \"".data ++ takeStr 30 q ++
    "...\"".data

/-- The `try` body of `processInteraction`: the fixed 8-step workflow. -/
def piBody (api : MemApi) (cb : Option (Str → EnrichedCtx → Except Str Unit))
    (now : Nat) (q : Str) : Except Str Str := do
    let _ ← api.storeContext ("current_query".data) (JVal.str q)
    let _ ← api.storeConversation { role := "user".data, content := q, timestamp := now }
    let ec := enrichContextE api now q
    let response := responseText q ec.relevantKnowledge.length
    let _ ← api.storeContext ("last_response".data) (JVal.str response)
    let _ ← api.storeConversation
      { role := "assistant".data, content := response, timestamp := now }
    let prev ← api.getContext ("interaction_count".data)
    let cnt : Int := (match prev with | some (JVal.num n) => n | _ => 0) + 1
    let _ ← api.storeContext ("interaction_count".data) (JVal.num cnt)
    let _ : Unit := (if cnt % 5 = 0 then
      let _ := consolidateCaught api now
      let _ := extractCaught api now
      ()
    else ())
    match cb with
    | some f => do
      let _ ← f response ec
      pure response
    | none => pure response

/-- `MEMORY_CONTROLLER.processInteraction(userQuery, responseCallback)`:
the body runs inside one `try`, whose `catch` returns the generic
fallback string. -/
def processInteraction (api : MemApi) (cb : Option (Str → EnrichedCtx → Except Str Unit))
    (now : Nat) (q : Str) : Str :=
  match piBody api cb now q with
  | Except.ok r => r
  | Except.error _ => fallbackText q

/-- `ShortTermMemory.addWorkingContext` from `part_002`, with an injected
fault standing for any exception raised inside its `try` (the `catch`
returns `null` and leaves the store as it was). `ridx` models
`Math.floor(Math.random() * 10000)`. -/
def addWorkingContext (fault : Bool) (now : Nat) (ridx : Nat) (memoryLimit : Int)
    (topic details : Str) (importance : Int) (expires : Option Int)
    (wc : List WItem) : Option Str × List WItem :=
  if fault then (none, wc)
  else
    let id := "ctx_".data ++ natStr now ++ "_".data ++ natStr ridx
    let item : WItem :=
      { id := id, topic := topic, details := details, importance := importance,
        createdAt := now, expires := expires }
    let wc1 := wc ++ [item]
    let wc2 :=
      if memoryLimit < (wc1.length : Int) then (pruneMemory (now : Int) memoryLimit none wc1).1
      else wc1
    (some id, wc2)

/-! ### EpisodicMemory summarization (`001-system-core.mdc`) -/

/-- Insert-or-increment on an insertion-ordered counter object
(`obj[k] = (obj[k] || 0) + 1`). -/
def bumpCount (acc : List (Str × Nat)) (k : Str) : List (Str × Nat) :=
  if acc.any (fun e => e.1 = k) then acc.map (fun e => if e.1 = k then (e.1, e.2 + 1) else e)
  else acc ++ [(k, 1)]

/-- `roleCounts` of `summarizeConversations`. -/
def roleCounts (convs : List Conv) : List (Str × Nat) :=
  convs.foldl (fun acc c => bumpCount acc c.role) []

/-- The fixed stop-word set of `extractTopics`. -/
def commonWords : List Str :=
  ["the", "and", "a", "an", "in", "on", "at", "to", "for", "with", "of", "is",
   "are", "was", "were"].map String.data

/-- Frequency-descending comparator `(a, b) => b[1] - a[1]` over counter
entries. (JS `Object.entries` puts all-digit keys first; that only
permutes ties of equal count, which no verified property depends on.) -/
def cntDesc (a b : Str × Nat) : Bool := decide (b.2 ≤ a.2)

/-- `EpisodicMemory.extractTopics(text)`: lower-case, strip
non-word/non-space characters, split on whitespace, count words longer
than 3 characters that are not stop words, and return the five most
frequent. -/
def extractTopics (text : Str) : List Str :=
  let cleanText := (lowStr text).filter (fun c => isWordChar c || isWS c)
  let ws := splitWS cleanText
  let wordCounts := ws.foldl (fun acc w =>
    if 3 < w.length && !(commonWords.contains w) then bumpCount acc w else acc) []
  ((sortBy cntDesc wordCounts).take 5).map Prod.fst

def padZeros (w : Nat) (n : Nat) : Str :=
  let s := natStr n
  List.replicate (w - s.length) '0' ++ s

def isLeap (y : Nat) : Bool := (y % 4 = 0 && !(y % 100 = 0)) || y % 400 = 0

def daysInYear (y : Nat) : Nat := if isLeap y then 366 else 365

def monthLengths (y : Nat) : List Nat :=
  [31, if isLeap y then 29 else 28, 31, 30, 31, 30, 31, 31, 30, 31, 30, 31]

/-- Resolve a day count (since 1970-01-01) to a year and day-of-year;
fuel-based so it evaluates under `decide`. -/
def yearAux : Nat → Nat → Nat → Nat × Nat
  | 0, y, d => (y, d)
  | fuel + 1, y, d => if d < daysInYear y then (y, d) else yearAux fuel (y + 1) (d - daysInYear y)

/-- Resolve a day-of-year to a (1-based) month and day-of-month. -/
def monthAux : List Nat → Nat → Nat → Nat × Nat
  | [], m, d => (m, d)
  | ml :: rest, m, d => if d < ml then (m, d) else monthAux rest (m + 1) (d - ml)

/-- `new Date(t).toISOString()` for a non-negative millisecond timestamp:
`YYYY-MM-DDTHH:MM:SS.mmmZ`. -/
def isoString (t : Nat) : Str :=
  let days := t / 86400000
  let msod := t % 86400000
  let yd := yearAux (days + 1) 1970 days
  let md := monthAux (monthLengths yd.1) 1 yd.2
  padZeros 4 yd.1 ++ "-".data ++ padZeros 2 md.1 ++ "-".data ++ padZeros 2 (md.2 + 1) ++
    "T".data ++ padZeros 2 (msod / 3600000) ++ ":".data ++
    padZeros 2 (msod % 3600000 / 60000) ++ ":".data ++
    padZeros 2 (msod % 60000 / 1000) ++ ".".data ++ padZeros 3 (msod % 1000) ++ "Z".data

/-- The summary string template of `summarizeConversations` (a template
literal spanning three lines; the embedded newline-plus-indentation is
reproduced exactly). -/
def renderSummary (count : Nat) (firstIso lastIso : Str) (rc : List (Str × Nat))
    (topics : List Str) : Str :=
  "Conversation with ".data ++ natStr count ++ " messages from ".data ++ firstIso ++
    " to ".data ++ lastIso ++ ". \n          Message counts by role: ".data ++
    (List.intercalate (", ".data) (rc.map (fun e => e.1 ++ ": ".data ++ natStr e.2))) ++
    ". \n          Main topics: ".data ++ (List.intercalate (", ".data) topics) ++ ".".data

/-- `EpisodicMemory.summarizeConversations(conversations)`: role counts,
first/last timestamp of the list sorted ascending by timestamp, and the
topics of all contents joined (in sorted order) with spaces. -/
def summarizeConversations (convs : List Conv) : Str :=
  if convs.isEmpty then "No conversations to summarize.".data
  else
    let rc := roleCounts convs
    let sorted := sortBy tsAsc convs
    let firstTs := (sorted.headD dummyConv).timestamp
    let lastTs := (sorted.getLastD dummyConv).timestamp
    let allText := List.intercalate (" ".data) (sorted.map Conv.content)
    renderSummary convs.length (isoString firstTs) (isoString lastTs) rc (extractTopics allText)


/-! ### Concrete fixtures used by witnesses and counterexamples -/

def wItemA : WItem :=
  { id := "a".data, topic := "t1".data, details := "d1".data, importance := 1,
    createdAt := 0, expires := none }

def wItemB : WItem :=
  { id := "b".data, topic := "t2".data, details := "d2".data, importance := 5,
    createdAt := 0, expires := none }

def wItemC : WItem :=
  { id := "c".data, topic := "t3".data, details := "d3".data, importance := 3,
    createdAt := 0, expires := some 5 }

/-- Three stored items: importances 1 and 5 (never expiring) in that
order, plus one item already expired at time 10. -/
def wcC1 : List WItem := [wItemA, wItemB, wItemC]

/-- The row inserted by `storeKnowledge` when no node with the given
(category, topic) exists and no options are passed. -/
def newRow (now : Nat) (cat top content : Str) : SemRow :=
  { id := mintId cat top now, category := cat, topic := top, content := content,
    confidence := 1, timestamp := now, lastAccessed := now, source := none, metadata := none }

/-- Queries containing no SQL `LIKE` wildcard characters. -/
def noWild (q : Str) : Bool := q.all (fun c => !(c = '%') && !(c = '_'))

/-- A knowledge row whose topic is "abc" (fixture for the search
claims). -/
def rowCE : SemRow :=
  { id := "k1".data, category := "c".data, topic := "abc".data, content := "x".data,
    confidence := 1, timestamp := 0, lastAccessed := 0, source := none, metadata := none }

def dbC5 : MemDB := { sem := [rowCE], rels := [] }

/-- Search-ranking fixtures: confidences 0.9, 0.5, 0.9 with different
`lastAccessed` values; all topics contain "ab". -/
def rowW1 : SemRow :=
  { id := "w1".data, category := "c".data, topic := "ab one".data, content := "x".data,
    confidence := mkRat 9 10, timestamp := 0, lastAccessed := 1, source := none, metadata := none }

def rowW2 : SemRow :=
  { id := "w2".data, category := "c".data, topic := "ab two".data, content := "y".data,
    confidence := mkRat 1 2, timestamp := 0, lastAccessed := 5, source := none, metadata := none }

def rowW3 : SemRow :=
  { id := "w3".data, category := "c".data, topic := "AB three".data, content := "z".data,
    confidence := mkRat 9 10, timestamp := 0, lastAccessed := 7, source := none, metadata := none }

def dbC5w : MemDB := { sem := [rowW1, rowW2, rowW3], rels := [] }

/-- Runtime invariant of the in-memory semantic store: every property-key
id already stored is below the fresh-id counter. -/
def SemWF (s : Sem303) (n : Nat) : Prop :=
  ∀ b ∈ s.buckets, ∀ e ∈ b.2, e.1 < n

/-- The importance mapping exactly as the claim words it:
`>=5 → "high"`, `>=3 → "medium"`, otherwise `"low"`. -/
def claimImpMap (imp : Int) : Str :=
  if 5 ≤ imp then "high".data else if 3 ≤ imp then "medium".data else "low".data

/-- The working-context item of the consolidation scenario:
`{topic: "goal", details: "ship v1", importance: 5}`. -/
def goalItem : WItem :=
  { id := "g".data, topic := "goal".data, details := "ship v1".data, importance := 5,
    createdAt := 0, expires := none }

/-- Controller state holding only the scenario item. -/
def stC2 : MdcState :=
  { contexts := [("working_context".data, JVal.items [goalItem])],
    semantic := ⟨[]⟩, nextId := 0, episodic := [] }

/-- The scan set as the claim words it: the 20 most recent NON-SYSTEM
conversation entries (the code instead takes the 20 most recent entries
of any role, and then skips the system ones). Used only to state the C6
counterexample. -/
def claimScan (episodic : List Conv) : List Conv :=
  ((sortBy tsDesc episodic).filter (fun c => !(c.role = "system".data))).take 20

/-- The oldest entry of the C6 counterexample log: a user turn containing
"bug". -/
def convBug : Conv := { role := "user".data, content := "there is a bug".data, timestamp := 1 }

/-- 21 conversation entries: a system turn is the most recent, 19 neutral
user turns follow, and the user turn containing "bug" is the oldest (the
21st most recent overall but among the 20 most recent non-system
entries). -/
def epC6 : List Conv :=
  { role := "system".data, content := "s".data, timestamp := 22 } ::
    ((List.range 19).map (fun n =>
      { role := "user".data, content := "x".data, timestamp := n + 2 })) ++ [convBug]

def stC6 : MdcState := { contexts := [], semantic := ⟨[]⟩, nextId := 0, episodic := epC6 }

/-- The single-turn scenario state: one user conversation
"there is a bug in the function". -/
def stC6w : MdcState :=
  { contexts := [], semantic := ⟨[]⟩, nextId := 0,
    episodic := [{ role := "user".data, content := "there is a bug in the function".data,
                   timestamp := 3 }] }

/-- Conversation fixtures for the summarization witness. -/
def convC9a : Conv := { role := "user".data, content := "hello world hello".data, timestamp := 5 }

def convC9b : Conv := { role := "assistant".data, content := "alpha beta".data, timestamp := 2 }

def convsC9 : List Conv := [convC9a, convC9b]

/-! ## Theorems

General lemmas about the helper functions, followed by the claim
theorems. -/

theorem undigits_digitsAux : ∀ fuel n, n ≤ fuel → undigits (digitsAux fuel n) = n := by
  intro fuel
  induction fuel with
  | zero =>
    intro n h
    interval_cases n
    rfl
  | succ f ih =>
    intro n h
    match n with
    | 0 => rfl
    | n + 1 =>
      have hdiv : (n + 1) / 10 ≤ f := by
        have h1 : (n + 1) / 10 < n + 1 := Nat.div_lt_self (Nat.succ_pos n) (by norm_num)
        omega
      simp only [digitsAux, undigits, ih _ hdiv]
      omega

theorem undigits_decDigits (n : Nat) : undigits (decDigits n) = n :=
  undigits_digitsAux n n (Nat.le_refl n)

theorem decDigits_injective : Function.Injective decDigits := by
  intro a b h
  have := undigits_decDigits a
  rw [h, undigits_decDigits] at this
  omega

theorem digitsAux_lt_ten : ∀ fuel n, ∀ d ∈ digitsAux fuel n, d < 10 := by
  intro fuel
  induction fuel with
  | zero =>
    intro n d hd
    match n with
    | 0 => simp [digitsAux] at hd
    | n + 1 => simp [digitsAux] at hd
  | succ f ih =>
    intro n d hd
    match n with
    | 0 => simp [digitsAux] at hd
    | n + 1 =>
      simp only [digitsAux, List.mem_cons] at hd
      rcases hd with h | h
      · subst h
        exact Nat.mod_lt _ (by norm_num)
      · exact ih _ d h

theorem digitCh_inj_lt : ∀ a < 10, ∀ b < 10, digitCh a = digitCh b → a = b := by decide

theorem map_digitCh_inj {l1 l2 : List Nat} (h1 : ∀ d ∈ l1, d < 10) (h2 : ∀ d ∈ l2, d < 10)
    (h : l1.map digitCh = l2.map digitCh) : l1 = l2 := by
  induction l1 generalizing l2 with
  | nil => cases l2 <;> simp_all
  | cons a as ih =>
    cases l2 with
    | nil => simp at h
    | cons b bs =>
      simp only [List.map_cons, List.cons.injEq] at h
      have ha : a < 10 := h1 a (by simp)
      have hb : b < 10 := h2 b (by simp)
      have hab : a = b := digitCh_inj_lt a ha b hb h.1
      have : as = bs := by
        refine ih (fun d hd => h1 d (by simp [hd])) (fun d hd => h2 d (by simp [hd])) h.2
      simp [hab, this]

theorem natStr_ne_zeroStr {b : Nat} (hb : b ≠ 0) : natStr b ≠ ['0'] := by
  intro h
  rw [natStr, if_neg hb] at h
  have hd0 : digitCh 0 = '0' := by decide
  have h0 : (decDigits b).reverse.map digitCh = ([0] : List Nat).map digitCh := by
    simpa [hd0] using h
  have hdig := map_digitCh_inj
    (fun d hd => digitsAux_lt_ten b b d (List.mem_reverse.mp hd)) (by simp) h0
  have hdd : decDigits b = [0] := by simpa using congrArg List.reverse hdig
  have hb' := undigits_decDigits b
  rw [hdd] at hb'
  simp [undigits] at hb'
  exact hb hb'.symm

theorem natStr_injective : Function.Injective natStr := by
  intro a b h
  by_cases ha : a = 0 <;> by_cases hb : b = 0
  · omega
  · exfalso
    subst ha
    have h0 : natStr 0 = ['0'] := rfl
    rw [h0] at h
    exact natStr_ne_zeroStr hb h.symm
  · exfalso
    subst hb
    have h0 : natStr 0 = ['0'] := rfl
    rw [h0] at h
    exact natStr_ne_zeroStr ha h
  · simp only [natStr, if_neg ha, if_neg hb] at h
    have h1 : ∀ d ∈ (decDigits a).reverse, d < 10 :=
      fun d hd => digitsAux_lt_ten a a d (List.mem_reverse.mp hd)
    have h2 : ∀ d ∈ (decDigits b).reverse, d < 10 :=
      fun d hd => digitsAux_lt_ten b b d (List.mem_reverse.mp hd)
    have hrev := map_digitCh_inj h1 h2 h
    have : decDigits a = decDigits b := by
      simpa using congrArg List.reverse hrev
    exact decDigits_injective this

theorem insertBy_perm (le : α → α → Bool) (x : α) (l : List α) :
    (insertBy le x l).Perm (x :: l) := by
  induction l with
  | nil => exact List.Perm.refl _
  | cons y ys ih =>
    rw [insertBy]
    by_cases h : le x y
    · rw [if_pos h]
    · rw [if_neg h]
      exact (List.Perm.cons y ih).trans (List.Perm.swap x y ys)

theorem sortBy_perm (le : α → α → Bool) (l : List α) : (sortBy le l).Perm l := by
  induction l with
  | nil => exact List.Perm.refl _
  | cons x xs ih =>
    rw [sortBy]
    exact (insertBy_perm le x _).trans (List.Perm.cons x ih)

theorem sortBy_mem (le : α → α → Bool) (l : List α) (x : α) :
    x ∈ sortBy le l ↔ x ∈ l := (sortBy_perm le l).mem_iff

theorem sortBy_length (le : α → α → Bool) (l : List α) :
    (sortBy le l).length = l.length := (sortBy_perm le l).length_eq

theorem insertBy_sorted (le : α → α → Bool)
    (htot : ∀ a b, le a b = false → le b a = true)
    (htrans : ∀ a b c, le a b = true → le b c = true → le a c = true)
    (x : α) (l : List α) (h : SortedB le l) : SortedB le (insertBy le x l) := by
  induction l with
  | nil => simp [insertBy]
  | cons y ys ih =>
    rw [insertBy]
    by_cases hxy : le x y
    · rw [if_pos hxy]
      refine List.Pairwise.cons ?_ h
      intro z hz
      rcases List.mem_cons.mp hz with rfl | hz
      · exact hxy
      · exact htrans x y z hxy ((List.pairwise_cons.mp h).1 z hz)
    · rw [if_neg hxy]
      have hyx : le y x = true := htot x y (Bool.eq_false_iff.mpr (fun hc => hxy hc))
      have hys : SortedB le ys := (List.pairwise_cons.mp h).2
      refine List.Pairwise.cons ?_ (ih hys)
      intro z hz
      have hz2 : z ∈ x :: ys := (insertBy_perm le x ys).mem_iff.mp hz
      rcases List.mem_cons.mp hz2 with rfl | hz'
      · exact hyx
      · exact (List.pairwise_cons.mp h).1 z hz'

theorem sortBy_sorted (le : α → α → Bool)
    (htot : ∀ a b, le a b = false → le b a = true)
    (htrans : ∀ a b c, le a b = true → le b c = true → le a c = true)
    (l : List α) : SortedB le (sortBy le l) := by
  induction l with
  | nil => simp [sortBy]
  | cons x xs ih =>
    rw [sortBy]
    exact insertBy_sorted le htot htrans x _ ih

theorem impAsc_total : ∀ a b : WItem, impAsc a b = false → impAsc b a = true := by
  intro a b h
  simp only [impAsc, decide_eq_false_iff_not, not_le] at h
  simp only [impAsc, decide_eq_true_eq]
  omega

theorem impAsc_trans :
    ∀ a b c : WItem, impAsc a b = true → impAsc b c = true → impAsc a c = true := by
  intro a b c h1 h2
  simp only [impAsc, decide_eq_true_eq] at h1 h2 ⊢
  omega

theorem impDesc_total : ∀ a b : WItem, impDesc a b = false → impDesc b a = true := by
  intro a b h
  simp only [impDesc, decide_eq_false_iff_not, not_le] at h
  simp only [impDesc, decide_eq_true_eq]
  omega

theorem impDesc_trans :
    ∀ a b c : WItem, impDesc a b = true → impDesc b c = true → impDesc a c = true := by
  intro a b c h1 h2
  simp only [impDesc, decide_eq_true_eq] at h1 h2 ⊢
  omega

theorem pruneMemory_eq (now limit T : Int) (wc : List WItem) (hT : T ≠ 0)
    (hlt : T < (wc.length : Int)) :
    pruneMemory now limit (some T) wc =
      if T < ((wc.filter (keepUnexpired now)).length : Int) then
        (sortBy impDesc ((sortBy impAsc (wc.filter (keepUnexpired now))).drop
            ((wc.filter (keepUnexpired now)).length - T.toNat)),
         wc.length - (wc.filter (keepUnexpired now)).length +
           ((wc.filter (keepUnexpired now)).length - T.toNat))
      else (wc.filter (keepUnexpired now),
            wc.length - (wc.filter (keepUnexpired now)).length) := by
  simp only [pruneMemory, if_neg hT]
  rw [if_neg (by omega : ¬ ((wc.length : Int) ≤ T))]

/-- **C1** (amended). For every positive target size `T` strictly smaller
than the number of stored items (the code treats a target of `0` or
`null` as "use the configured memory limit"), `pruneMemory(T)` first
removes every expired item and then, if the count still exceeds `T`,
removes lowest-importance items until exactly `T` remain: afterwards the
list has exactly `min(T, number of non-expired items)` elements; when the
non-expired count still exceeded `T`, the survivors are the
highest-importance non-expired items (every discarded non-expired item
has importance ≤ every survivor) and the list is sorted descending by
importance; otherwise the surviving list is exactly the non-expired items
in their original order (not re-sorted). -/
theorem C1_pruneMemory_amended (now limit T : Int) (wc : List WItem)
    (hT : 0 < T) (hlt : T < (wc.length : Int)) :
    (pruneMemory now limit (some T) wc).1.length
        = min T.toNat (wc.filter (keepUnexpired now)).length
    ∧ (((wc.filter (keepUnexpired now)).length : Int) ≤ T →
        (pruneMemory now limit (some T) wc).1 = wc.filter (keepUnexpired now))
    ∧ (T < ((wc.filter (keepUnexpired now)).length : Int) →
        SortedB impDesc (pruneMemory now limit (some T) wc).1
        ∧ (pruneMemory now limit (some T) wc).1.Perm
            ((sortBy impAsc (wc.filter (keepUnexpired now))).drop
              ((wc.filter (keepUnexpired now)).length - T.toNat))
        ∧ ∀ x ∈ (sortBy impAsc (wc.filter (keepUnexpired now))).take
              ((wc.filter (keepUnexpired now)).length - T.toNat),
            ∀ y ∈ (pruneMemory now limit (some T) wc).1,
              x.importance ≤ y.importance) := by
  have hT0 : T ≠ 0 := by omega
  rw [pruneMemory_eq now limit T wc hT0 hlt]
  by_cases hc : T < ((wc.filter (keepUnexpired now)).length : Int)
  · rw [if_pos hc]
    dsimp only
    have hTle : T.toNat ≤ (wc.filter (keepUnexpired now)).length := by omega
    have hsortedAsc : SortedB impAsc (sortBy impAsc (wc.filter (keepUnexpired now))) :=
      sortBy_sorted impAsc impAsc_total impAsc_trans _
    refine ⟨?_, fun hle => absurd hle (by omega), fun _ => ⟨?_, ?_, ?_⟩⟩
    · rw [sortBy_length, List.length_drop, sortBy_length]
      omega
    · exact sortBy_sorted impDesc impDesc_total impDesc_trans _
    · exact sortBy_perm impDesc _
    · intro x hx y hy
      have hy2 : y ∈ (sortBy impAsc (wc.filter (keepUnexpired now))).drop
          ((wc.filter (keepUnexpired now)).length - T.toNat) :=
        (sortBy_mem impDesc _ y).mp hy
      have hsplit := List.take_append_drop
        ((wc.filter (keepUnexpired now)).length - T.toNat)
        (sortBy impAsc (wc.filter (keepUnexpired now)))
      have hpw : SortedB impAsc
          ((sortBy impAsc (wc.filter (keepUnexpired now))).take
              ((wc.filter (keepUnexpired now)).length - T.toNat) ++
            (sortBy impAsc (wc.filter (keepUnexpired now))).drop
              ((wc.filter (keepUnexpired now)).length - T.toNat)) := by
        rw [hsplit]
        exact hsortedAsc
      have := (List.pairwise_append.mp hpw).2.2 x hx y hy2
      simpa [impAsc] using this
  · rw [if_neg hc]
    dsimp only
    refine ⟨by omega, fun _ => rfl, fun hgt => absurd hgt hc⟩

/-- **C1** (counterexample to the claim as stated). With items of
importance 1 and 5 stored in that order plus one expired item, and target
size `T = 2 < 3`, pruning removes only the expired item and returns
without re-sorting, so the surviving list `[importance 1, importance 5]`
is not sorted descending by importance. -/
theorem C1_pruneMemory_counterexample :
    (2 : Int) < (wcC1.length : Int)
    ∧ (pruneMemory 10 1000 (some 2) wcC1).1 = [wItemA, wItemB]
    ∧ ¬ SortedB impDesc (pruneMemory 10 1000 (some 2) wcC1).1 := by
  refine ⟨by decide, by decide, ?_⟩
  intro h
  have := List.rel_of_pairwise_cons h (by decide : wItemB ∈ [wItemB])
  simp [impDesc, wItemA, wItemB] at this

/-- Witness for `C1_pruneMemory_amended` at `T = 1`,
`wc = [wItemA, wItemB]`. -/
theorem C1_pruneMemory_witness :
    ((0 : Int) < 1 ∧ (1 : Int) < (([wItemA, wItemB] : List WItem).length : Int))
    ∧ ((pruneMemory 0 1000 (some 1) [wItemA, wItemB]).1.length
        = min (1 : Int).toNat ([wItemA, wItemB].filter (keepUnexpired 0)).length
    ∧ ((([wItemA, wItemB].filter (keepUnexpired 0)).length : Int) ≤ 1 →
        (pruneMemory 0 1000 (some 1) [wItemA, wItemB]).1
          = [wItemA, wItemB].filter (keepUnexpired 0))
    ∧ ((1 : Int) < (([wItemA, wItemB].filter (keepUnexpired 0)).length : Int) →
        SortedB impDesc (pruneMemory 0 1000 (some 1) [wItemA, wItemB]).1
        ∧ (pruneMemory 0 1000 (some 1) [wItemA, wItemB]).1.Perm
            ((sortBy impAsc ([wItemA, wItemB].filter (keepUnexpired 0))).drop
              (([wItemA, wItemB].filter (keepUnexpired 0)).length - (1 : Int).toNat))
        ∧ ∀ x ∈ (sortBy impAsc ([wItemA, wItemB].filter (keepUnexpired 0))).take
              (([wItemA, wItemB].filter (keepUnexpired 0)).length - (1 : Int).toNat),
            ∀ y ∈ (pruneMemory 0 1000 (some 1) [wItemA, wItemB]).1,
              x.importance ≤ y.importance)) :=
  ⟨⟨by decide, by decide⟩,
   C1_pruneMemory_amended 0 1000 1 [wItemA, wItemB] (by decide) (by decide)⟩

theorem map_id_of {α : Type} (l : List α) (f : α → α) (h : ∀ x ∈ l, f x = x) :
    l.map f = l := by
  induction l with
  | nil => rfl
  | cons x xs ih =>
    simp only [List.map_cons, h x (by simp)]
    rw [ih (fun y hy => h y (by simp [hy]))]

theorem any_congr {α : Type} (l : List α) (f g : α → Bool) (h : ∀ x ∈ l, f x = g x) :
    l.any f = l.any g := by
  induction l with
  | nil => rfl
  | cons x xs ih =>
    simp only [List.any_cons, h x (by simp)]
    rw [ih (fun y hy => h y (by simp [hy]))]

theorem storeKnowledge_insert (now : Nat) (cat top content : Str) (db : MemDB)
    (hfind : db.sem.find? (fun r => r.category = cat && r.topic = top) = none)
    (hany : db.sem.any (fun r => r.id = mintId cat top now) = false) :
    storeKnowledge now cat top content {} db =
      (some (mintId cat top now), { db with sem := db.sem ++ [newRow now cat top content] }) := by
  simp only [storeKnowledge, getKnowledge, hfind, hany]
  rfl

theorem storeKnowledge_update (now : Nat) (cat top content : Str) (db : MemDB) (r0 : SemRow)
    (hfind : db.sem.find? (fun r => r.category = cat && r.topic = top) = some r0) :
    storeKnowledge now cat top content {} db =
      (some (mintId cat top now),
       { db with sem := (touch r0.id now db).sem.map (fun r =>
          if r.category = cat && r.topic = top then
            { r with content := content, confidence := 1, timestamp := now,
                     source := none, metadata := none }
          else r) }) := by
  simp only [storeKnowledge, getKnowledge, hfind]
  rfl

/-- **C3**. Starting from a database with no node keyed (cat, topic) (and
no row already using the id minted at time `t1`, which the `PRIMARY KEY`
would reject), `storeKnowledge(cat, topic, c1)` at `t1` followed by
`storeKnowledge(cat, topic, c2)` at `t2` leaves exactly one node keyed
(cat, topic); its content is `c2` and its id is the one minted by the
first call; the second call updated in place and created no row. -/
theorem C3_storeKnowledge_upsert (t1 t2 : Nat) (cat top c1 c2 : Str) (db : MemDB)
    (hno : ∀ r ∈ db.sem, ¬(r.category = cat ∧ r.topic = top))
    (hid : ∀ r ∈ db.sem, r.id ≠ mintId cat top t1) :
    (storeKnowledge t1 cat top c1 {} db).1 = some (mintId cat top t1)
    ∧ (((storeKnowledge t2 cat top c2 {} (storeKnowledge t1 cat top c1 {} db).2).2).sem.filter
        (fun r => r.category = cat && r.topic = top)).length = 1
    ∧ (∀ r ∈ ((storeKnowledge t2 cat top c2 {} (storeKnowledge t1 cat top c1 {} db).2).2).sem,
        r.category = cat → r.topic = top → r.content = c2 ∧ r.id = mintId cat top t1)
    ∧ ((storeKnowledge t2 cat top c2 {} (storeKnowledge t1 cat top c1 {} db).2).2).sem.length
        = db.sem.length + 1 := by
  have hfind1 : db.sem.find? (fun r => r.category = cat && r.topic = top) = none := by
    rw [List.find?_eq_none]
    intro r hr hp
    simp only [Bool.and_eq_true, decide_eq_true_eq] at hp
    exact hno r hr hp
  have hany1 : db.sem.any (fun r => r.id = mintId cat top t1) = false := by
    rw [List.any_eq_false]
    intro r hr
    simp [hid r hr]
  have h1 := storeKnowledge_insert t1 cat top c1 db hfind1 hany1
  rw [h1]
  have hprow : (fun r : SemRow => r.category = cat && r.topic = top) (newRow t1 cat top c1)
      = true := by
    simp [newRow]
  have hfind2 : (db.sem ++ [newRow t1 cat top c1]).find?
      (fun r => r.category = cat && r.topic = top) = some (newRow t1 cat top c1) := by
    rw [List.find?_append, hfind1]
    simp only [Option.none_or]
    simp [List.find?, hprow, newRow]
  have h2 := storeKnowledge_update t2 cat top c2
    { db with sem := db.sem ++ [newRow t1 cat top c1] } (newRow t1 cat top c1) hfind2
  rw [h2]
  have htouch : (touch (newRow t1 cat top c1).id t2
      { db with sem := db.sem ++ [newRow t1 cat top c1] }).sem
      = db.sem ++ [{ newRow t1 cat top c1 with lastAccessed := t2 }] := by
    simp only [touch, List.map_append]
    rw [map_id_of db.sem _ (fun r hr => by
      rw [if_neg (show ¬(r.id = (newRow t1 cat top c1).id) from fun hc => hid r hr hc)])]
    simp [newRow]
  rw [htouch, List.map_append]
  rw [map_id_of db.sem _ (fun r hr => by
    rw [if_neg]
    intro hc
    simp only [Bool.and_eq_true, decide_eq_true_eq] at hc
    exact hno r hr hc)]
  have hupd : ([{ newRow t1 cat top c1 with lastAccessed := t2 }].map (fun r =>
      if r.category = cat && r.topic = top then
        { r with content := c2, confidence := 1, timestamp := t2,
                 source := none, metadata := none }
      else r))
      = [{ id := mintId cat top t1, category := cat, topic := top, content := c2,
           confidence := 1, timestamp := t2, lastAccessed := t2,
           source := none, metadata := none }] := by
    simp [newRow, hprow]
  rw [hupd]
  refine ⟨rfl, ?_, ?_, by simp⟩
  · rw [List.filter_append]
    have : db.sem.filter (fun r => r.category = cat && r.topic = top) = [] := by
      rw [List.filter_eq_nil_iff]
      intro r hr hp
      simp only [Bool.and_eq_true, decide_eq_true_eq] at hp
      exact hno r hr hp
    rw [this]
    simp
  · intro r hr hc ht
    rcases List.mem_append.mp hr with hin | hin
    · exact absurd ⟨hc, ht⟩ (hno r hin)
    · rcases List.mem_singleton.mp hin with rfl
      exact ⟨rfl, rfl⟩

/-- Witness for `C3_storeKnowledge_upsert` on the empty database. -/
theorem C3_storeKnowledge_upsert_witness :
    (∀ r ∈ (MemDB.mk [] []).sem, ¬(r.category = "c".data ∧ r.topic = "t".data))
    ∧ (∀ r ∈ (MemDB.mk [] []).sem, r.id ≠ mintId ("c".data) ("t".data) 1)
    ∧ ((storeKnowledge 1 ("c".data) ("t".data) ("c1".data) {} (MemDB.mk [] [])).1
        = some (mintId ("c".data) ("t".data) 1)
    ∧ (((storeKnowledge 2 ("c".data) ("t".data) ("c2".data) {}
          (storeKnowledge 1 ("c".data) ("t".data) ("c1".data) {} (MemDB.mk [] [])).2).2).sem.filter
        (fun r => r.category = "c".data && r.topic = "t".data)).length = 1
    ∧ (∀ r ∈ ((storeKnowledge 2 ("c".data) ("t".data) ("c2".data) {}
          (storeKnowledge 1 ("c".data) ("t".data) ("c1".data) {} (MemDB.mk [] [])).2).2).sem,
        r.category = "c".data → r.topic = "t".data →
          r.content = "c2".data ∧ r.id = mintId ("c".data) ("t".data) 1)
    ∧ ((storeKnowledge 2 ("c".data) ("t".data) ("c2".data) {}
          (storeKnowledge 1 ("c".data) ("t".data) ("c1".data) {} (MemDB.mk [] [])).2).2).sem.length
        = (MemDB.mk [] []).sem.length + 1) :=
  ⟨by simp, by simp,
   C3_storeKnowledge_upsert 1 2 ("c".data) ("t".data) ("c1".data) ("c2".data)
     (MemDB.mk [] []) (by simp) (by simp)⟩

theorem squeeze_no_ws (d : Str) (hd : ∀ c ∈ d, isWS c = false) : ∀ b, squeeze b d = d := by
  induction d with
  | nil => intro b; rfl
  | cons c cs ih =>
    intro b
    have hc : isWS c = false := hd c (by simp)
    simp only [squeeze, hc]
    simp only [Bool.false_eq_true, if_false]
    rw [ih (fun x hx => hd x (by simp [hx])) false]

theorem squeeze_append (d : Str) (hd : ∀ c ∈ d, isWS c = false) :
    ∀ (p : Str) (b : Bool), squeeze b (p ++ d) = squeeze b p ++ d := by
  intro p
  induction p with
  | nil =>
    intro b
    simp only [List.nil_append, squeeze]
    exact squeeze_no_ws d hd b
  | cons c cs ih =>
    intro b
    simp only [List.cons_append, squeeze, List.append_eq]
    by_cases hc : isWS c
    · rw [if_pos hc, if_pos hc]
      by_cases hb : b
      · rw [if_pos hb, if_pos hb, ih true]
      · rw [if_neg hb, if_neg hb, ih true]
        rfl
    · rw [if_neg hc, if_neg hc, ih false]
      rfl

theorem natStr_no_ws (n : Nat) : ∀ c ∈ natStr n, isWS c = false := by
  intro c hc
  rw [natStr] at hc
  by_cases hn : n = 0
  · rw [if_pos hn] at hc
    rcases List.mem_singleton.mp hc with rfl
    decide
  · rw [if_neg hn] at hc
    rcases List.mem_map.mp hc with ⟨d, hd, rfl⟩
    have hd10 : d < 10 := digitsAux_lt_ten n n d (List.mem_reverse.mp hd)
    interval_cases d <;> decide

theorem mintId_time_inj {cat top : Str} {t1 t2 : Nat}
    (h : mintId cat top t1 = mintId cat top t2) : t1 = t2 := by
  have hsplit : ∀ t : Nat, mintId cat top t
      = squeeze false (cat ++ '_' :: top ++ ['_']) ++ natStr t := by
    intro t
    rw [mintId, sanitizeWS]
    rw [show cat ++ '_' :: top ++ '_' :: natStr t = (cat ++ '_' :: top ++ ['_']) ++ natStr t by
      simp]
    exact squeeze_append (natStr t) (natStr_no_ws t) _ false
  rw [hsplit t1, hsplit t2] at h
  exact natStr_injective (List.append_cancel_left h)

/-- A row update that does not change the id leaves the id list of the
store unchanged. -/
theorem map_preserves_ids (l : List SemRow) (f : SemRow → SemRow)
    (h : ∀ r, (f r).id = r.id) : (l.map f).map SemRow.id = l.map SemRow.id := by
  rw [List.map_map]
  exact List.map_congr_left (fun x _ => h x)

/-- **C10**. When `storeKnowledge(category, topic, content)` is called
without an explicit id for a (category, topic) pair whose stored node
carries the id minted at an earlier time `t1 ≠ t2`, the stored rows keep
their ids, but the call returns the freshly minted id for time `t2`,
which differs from the stored node's id, so `getById` on the returned id
never yields the updated node. -/
theorem C10_storeKnowledge_staleId (t1 t2 : Nat) (cat top c2 : Str) (db : MemDB) (r0 : SemRow)
    (hfind : db.sem.find? (fun r => r.category = cat && r.topic = top) = some r0)
    (hr0 : r0.id = mintId cat top t1) (hne : t1 ≠ t2) :
    (storeKnowledge t2 cat top c2 {} db).1 = some (mintId cat top t2)
    ∧ (storeKnowledge t2 cat top c2 {} db).2.sem.map SemRow.id = db.sem.map SemRow.id
    ∧ mintId cat top t2 ≠ r0.id
    ∧ ∀ r : SemRow,
        (getById (mintId cat top t2) t2 (storeKnowledge t2 cat top c2 {} db).2).1 = some r →
          r.id ≠ r0.id := by
  have hmne : mintId cat top t2 ≠ r0.id := by
    rw [hr0]
    intro hc
    exact hne (mintId_time_inj hc).symm
  have h2 := storeKnowledge_update t2 cat top c2 db r0 hfind
  rw [h2]
  refine ⟨rfl, ?_, hmne, ?_⟩
  · dsimp only
    rw [map_preserves_ids _ _ (fun r => by split <;> rfl)]
    simp only [touch]
    rw [map_preserves_ids _ _ (fun r => by split <;> rfl)]
  · intro r hfr
    dsimp only [getById] at hfr
    rcases hfound : ((touch r0.id t2 db).sem.map (fun r =>
        if r.category = cat && r.topic = top then
          { r with content := c2, confidence := 1, timestamp := t2,
                   source := none, metadata := none }
        else r)).find? (fun r => r.id = mintId cat top t2) with _ | rfound
    · rw [hfound] at hfr
      simp at hfr
    · rw [hfound] at hfr
      have hp := List.find?_some hfound
      simp only [decide_eq_true_eq] at hp
      simp only [Option.some.injEq] at hfr
      subst hfr
      rw [hp]
      exact hmne

/-- Witness for `C10_storeKnowledge_staleId`: one stored node minted at
time 1, updating call at time 2. -/
theorem C10_storeKnowledge_staleId_witness :
    ((MemDB.mk [newRow 1 ("c".data) ("t".data) ("c1".data)] []).sem.find?
        (fun r => r.category = "c".data && r.topic = "t".data)
        = some (newRow 1 ("c".data) ("t".data) ("c1".data))
    ∧ (newRow 1 ("c".data) ("t".data) ("c1".data)).id = mintId ("c".data) ("t".data) 1
    ∧ (1 : Nat) ≠ 2)
    ∧ ((storeKnowledge 2 ("c".data) ("t".data) ("c2".data) {}
          (MemDB.mk [newRow 1 ("c".data) ("t".data) ("c1".data)] [])).1
        = some (mintId ("c".data) ("t".data) 2)
    ∧ (storeKnowledge 2 ("c".data) ("t".data) ("c2".data) {}
          (MemDB.mk [newRow 1 ("c".data) ("t".data) ("c1".data)] [])).2.sem.map SemRow.id
        = (MemDB.mk [newRow 1 ("c".data) ("t".data) ("c1".data)] []).sem.map SemRow.id
    ∧ mintId ("c".data) ("t".data) 2 ≠ (newRow 1 ("c".data) ("t".data) ("c1".data)).id
    ∧ ∀ r : SemRow,
        (getById (mintId ("c".data) ("t".data) 2) 2
          (storeKnowledge 2 ("c".data) ("t".data) ("c2".data) {}
            (MemDB.mk [newRow 1 ("c".data) ("t".data) ("c1".data)] [])).2).1 = some r →
          r.id ≠ (newRow 1 ("c".data) ("t".data) ("c1".data)).id) :=
  ⟨⟨by decide, rfl, by decide⟩,
   C10_storeKnowledge_staleId 1 2 ("c".data) ("t".data) ("c2".data)
     (MemDB.mk [newRow 1 ("c".data) ("t".data) ("c1".data)] [])
     (newRow 1 ("c".data) ("t".data) ("c1".data)) (by decide) rfl (by decide)⟩

theorem touch_id_preserved (x : Str) (n : Nat) (r : SemRow) :
    (if r.id = x then { r with lastAccessed := n } else r).id = r.id := by
  split <;> rfl

theorem find?_id_touch (x : Str) (n : Nat) (db : MemDB) (i : Str) :
    (touch x n db).sem.find? (fun r => r.id = i)
      = (db.sem.find? (fun r => r.id = i)).map
          (fun r => if r.id = x then { r with lastAccessed := n } else r) := by
  simp only [touch]
  rw [List.find?_map]
  have hp : ((fun r : SemRow => decide (r.id = i)) ∘ (fun r =>
      if r.id = x then { r with lastAccessed := n } else r))
      = (fun r : SemRow => decide (r.id = i)) := by
    funext r
    simp only [Function.comp_apply, touch_id_preserved]
  rw [hp]

theorem lookupCatTopic_touch (x : Str) (n : Nat) (db : MemDB) (i : Str) :
    lookupCatTopic (touch x n db) i = lookupCatTopic db i := by
  simp only [lookupCatTopic, find?_id_touch]
  rcases h : db.sem.find? (fun r => r.id = i) with _ | r
  · rw [h]
    rfl
  · rw [h]
    dsimp only [Option.map]
    congr 1
    split <;> rfl

theorem getRelationships_congr (db1 db2 : MemDB) (hrels : db1.rels = db2.rels)
    (hlook : ∀ i, lookupCatTopic db1 i = lookupCatTopic db2 i) :
    ∀ nodeId ropts, getRelationships nodeId ropts db1 = getRelationships nodeId ropts db2 := by
  intro nodeId ropts
  unfold getRelationships
  rw [hrels]
  simp only [hlook]

/-- **C4**. If either endpoint of `createRelationship(sourceId, targetId,
type)` does not resolve to an existing knowledge node, the call returns
`false`, the stored relationships are unchanged, and every subsequent
`getRelationships` query returns exactly what it returned before the
call. -/
theorem C4_createRelationship_missing (now : Nat) (a b rtype : Str) (opts : ROpts) (db : MemDB)
    (hmiss : db.sem.find? (fun r => r.id = a) = none ∨ db.sem.find? (fun r => r.id = b) = none) :
    (createRelationship now a b rtype opts db).1 = false
    ∧ (createRelationship now a b rtype opts db).2.rels = db.rels
    ∧ ∀ nodeId ropts,
        getRelationships nodeId ropts (createRelationship now a b rtype opts db).2
          = getRelationships nodeId ropts db := by
  rcases hA : db.sem.find? (fun r => r.id = a) with _ | ra
  · rcases hB : db.sem.find? (fun r => r.id = b) with _ | rb
    · simp only [createRelationship, getById, hA, hB]
      exact ⟨rfl, rfl, fun n o => rfl⟩
    · simp only [createRelationship, getById, hA, hB]
      refine ⟨rfl, rfl, ?_⟩
      exact getRelationships_congr _ _ rfl (fun i => lookupCatTopic_touch b now db i)
  · have hBn : db.sem.find? (fun r => r.id = b) = none := by
      rcases hmiss with h | h
      · rw [hA] at h; cases h
      · exact h
    have hBn2 : (touch a now db).sem.find? (fun r => r.id = b) = none := by
      rw [find?_id_touch, hBn]
      rfl
    simp only [createRelationship, getById, hA, hBn2]
    refine ⟨rfl, rfl, ?_⟩
    exact getRelationships_congr _ _ rfl (fun i => lookupCatTopic_touch a now db i)

/-- Witness for `C4_createRelationship_missing`: one stored node `"k1"`
and a missing source id `"nope"`. -/
theorem C4_createRelationship_missing_witness :
    (dbC5.sem.find? (fun r => r.id = "nope".data) = none
      ∨ dbC5.sem.find? (fun r => r.id = "k1".data) = none)
    ∧ ((createRelationship 5 ("nope".data) ("k1".data) ("depends_on".data) {} dbC5).1 = false
    ∧ (createRelationship 5 ("nope".data) ("k1".data) ("depends_on".data) {} dbC5).2.rels
        = dbC5.rels
    ∧ ∀ nodeId ropts,
        getRelationships nodeId ropts
            (createRelationship 5 ("nope".data) ("k1".data) ("depends_on".data) {} dbC5).2
          = getRelationships nodeId ropts dbC5) :=
  ⟨Or.inl (by decide),
   C4_createRelationship_missing 5 ("nope".data) ("k1".data) ("depends_on".data) {} dbC5
     (Or.inl (by decide))⟩

theorem sufs_any_isEmpty : ∀ s : Str, (sufs s).any (fun x => x.isEmpty) = true := by
  intro s
  induction s with
  | nil => rfl
  | cons c cs ih => simp only [sufs, List.any_cons, ih, Bool.or_true]

theorem likePct (q : Str) (h : noWild q = true) :
    ∀ s, likeMatch (q ++ ['%']) s = startsWithCI q s := by
  induction q with
  | nil =>
    intro s
    simp only [List.nil_append, startsWithCI]
    show likeMatch ['%'] s = true
    simp only [likeMatch, if_pos rfl]
    rw [any_congr (sufs s) _ (fun x => x.isEmpty) (fun x _ => rfl)]
    exact sufs_any_isEmpty s
  | cons c q' ih =>
    intro s
    simp only [noWild, List.all_cons, Bool.and_eq_true, Bool.not_eq_true',
      decide_eq_false_iff_not] at h
    obtain ⟨⟨h1, h2⟩, h3⟩ := h
    have h3' : noWild q' = true := h3
    simp only [List.cons_append, likeMatch, if_neg h1, if_neg h2]
    cases s with
    | nil => rfl
    | cons d s' =>
      show (eqCI c d && likeMatch (q' ++ ['%']) s') = startsWithCI (c :: q') (d :: s')
      rw [ih h3' s']
      rfl

theorem likeMatch_hasSubCI (q t : Str) (h : noWild q = true) :
    likeMatch ('%' :: (q ++ ['%'])) t = hasSubCI q t := by
  simp only [likeMatch, if_pos rfl]
  exact any_congr (sufs t) _ _ (fun s _ => likePct q h s)

theorem rankLe_total : ∀ a b : SemRow, rankLe a b = false → rankLe b a = true := by
  intro a b h
  simp only [rankLe, Bool.or_eq_false_iff, Bool.and_eq_false_iff,
    decide_eq_false_iff_not, not_lt] at h
  simp only [rankLe, Bool.or_eq_true, Bool.and_eq_true, decide_eq_true_eq]
  rcases lt_trichotomy a.confidence b.confidence with hlt | heq | hgt
  · exact Or.inl hlt
  · right
    refine ⟨heq.symm, ?_⟩
    rcases h.2 with hne | hla
    · exact absurd heq hne
    · omega
  · exact absurd h.1 (not_le.mpr hgt)

theorem rankLe_trans :
    ∀ a b c : SemRow, rankLe a b = true → rankLe b c = true → rankLe a c = true := by
  intro a b c h1 h2
  simp only [rankLe, Bool.or_eq_true, Bool.and_eq_true, decide_eq_true_eq] at h1 h2 ⊢
  rcases h1 with h1 | ⟨h1e, h1l⟩
  · rcases h2 with h2 | ⟨h2e, h2l⟩
    · exact Or.inl (lt_trans h2 h1)
    · exact Or.inl (h2e ▸ h1)
  · rcases h2 with h2 | ⟨h2e, h2l⟩
    · exact Or.inl (h1e.symm ▸ h2)
    · exact Or.inr ⟨h1e.trans h2e, le_trans h2l h1l⟩

/-- **C5** (amended). For every query containing no SQL `LIKE` wildcard
(`%`, `_`), `search(query)` returns only stored rows whose topic or
content contains the query as a case-insensitive substring; the result is
sorted by confidence descending and, among equal confidence, by
`lastAccessed` descending, and has at most `limit` elements (10 when no
limit — or a falsy limit of 0 — is given). For queries containing
wildcards the filter is genuine SQL `LIKE` matching, which can accept
rows that do not contain the query as a substring. -/
theorem C5_search_amended (now : Nat) (q : Str) (opts : SearchOpts) (db : MemDB)
    (hq : noWild q = true) :
    (∀ r ∈ (search now q opts db).1,
        r ∈ db.sem ∧ (hasSubCI q r.topic = true ∨ hasSubCI q r.content = true))
    ∧ SortedB rankLe (search now q opts db).1
    ∧ (search now q opts db).1.length ≤ effLimit opts
    ∧ (opts.limit = none → (search now q opts db).1.length ≤ 10) := by
  have hres : (search now q opts db).1 =
      (sortBy rankLe (match opts.category with
        | none => db.sem.filter (fun r : SemRow =>
            likeMatch ('%' :: (q ++ ['%'])) r.topic || likeMatch ('%' :: (q ++ ['%'])) r.content)
        | some c => (db.sem.filter (fun r : SemRow =>
            likeMatch ('%' :: (q ++ ['%'])) r.topic
              || likeMatch ('%' :: (q ++ ['%'])) r.content)).filter
            (fun r : SemRow => r.category = c))).take (effLimit opts) := rfl
  rw [hres]
  have hm2 : ∀ r : SemRow, r ∈ (match opts.category with
        | none => db.sem.filter (fun r : SemRow =>
            likeMatch ('%' :: (q ++ ['%'])) r.topic || likeMatch ('%' :: (q ++ ['%'])) r.content)
        | some c => (db.sem.filter (fun r : SemRow =>
            likeMatch ('%' :: (q ++ ['%'])) r.topic
              || likeMatch ('%' :: (q ++ ['%'])) r.content)).filter
            (fun r : SemRow => r.category = c)) →
      r ∈ db.sem.filter (fun r : SemRow =>
        likeMatch ('%' :: (q ++ ['%'])) r.topic || likeMatch ('%' :: (q ++ ['%'])) r.content) := by
    intro r hr
    rcases hcat : opts.category with _ | c <;> rw [hcat] at hr
    · exact hr
    · exact List.mem_of_mem_filter (l := db.sem.filter (fun r : SemRow =>
        likeMatch ('%' :: (q ++ ['%'])) r.topic || likeMatch ('%' :: (q ++ ['%'])) r.content)) hr
  refine ⟨?_, ?_, ?_, ?_⟩
  · intro r hr
    have hr1 : r ∈ sortBy rankLe _ := (List.take_sublist _ _).mem hr
    have hr2 := hm2 r ((sortBy_mem rankLe _ r).mp hr1)
    have hmem := List.mem_of_mem_filter hr2
    have hcond := List.of_mem_filter hr2
    rw [Bool.or_eq_true, likeMatch_hasSubCI q r.topic hq, likeMatch_hasSubCI q r.content hq]
      at hcond
    exact ⟨hmem, hcond⟩
  · exact (sortBy_sorted rankLe rankLe_total rankLe_trans _).sublist (List.take_sublist _ _)
  · exact List.length_take_le _ _
  · intro hnone
    have : effLimit opts = 10 := by simp [effLimit, hnone]
    rw [← this]
    exact List.length_take_le _ _

/-- **C5** (counterexample to the claim as stated). The underscore in the
query `"a_c"` is a `LIKE` single-character wildcard: `search` returns the
row with topic `"abc"` even though neither its topic nor its content
contains `"a_c"` as a substring. -/
theorem C5_search_counterexample :
    (search 0 ("a_c".data) {} dbC5).1 = [rowCE]
    ∧ hasSubCI ("a_c".data) rowCE.topic = false
    ∧ hasSubCI ("a_c".data) rowCE.content = false := by
  refine ⟨?_, by decide, by decide⟩
  decide

/-- Witness for `C5_search_amended`, with the ranking scenario of the
claim: confidences 0.9, 0.5, 0.9 and `lastAccessed` 1, 5, 7 — the two
0.9-confidence rows come first, most recently accessed first, ahead of
the 0.5 row. -/
theorem C5_search_amended_witness :
    noWild ("ab".data) = true
    ∧ (search 9 ("ab".data) {} dbC5w).1 = [rowW3, rowW1, rowW2]
    ∧ ((∀ r ∈ (search 9 ("ab".data) {} dbC5w).1,
        r ∈ dbC5w.sem
          ∧ (hasSubCI ("ab".data) r.topic = true ∨ hasSubCI ("ab".data) r.content = true))
    ∧ SortedB rankLe (search 9 ("ab".data) {} dbC5w).1
    ∧ (search 9 ("ab".data) {} dbC5w).1.length ≤ effLimit {}
    ∧ (({} : SearchOpts).limit = none → (search 9 ("ab".data) {} dbC5w).1.length ≤ 10)) :=
  ⟨by decide, by decide,
   C5_search_amended 9 ("ab".data) {} dbC5w (by decide)⟩

theorem find?_fst_map_eq {β : Type} (l : List (Str × β)) (f : Str × β → Str × β)
    (hf : ∀ x, (f x).1 = x.1) (t : Str) :
    (l.map f).find? (fun b => b.1 = t) = (l.find? (fun b => b.1 = t)).map f := by
  rw [List.find?_map]
  have hp : ((fun b : Str × β => decide (b.1 = t)) ∘ f) = (fun b : Str × β => decide (b.1 = t)) := by
    funext x
    simp [Function.comp, hf x]
  rw [hp]

theorem assignProp_fresh (b : List (Nat × Knowledge)) (n : Nat) (k : Knowledge)
    (h : ∀ e ∈ b, e.1 < n) : assignProp n k b = b ++ [(n, k)] := by
  rw [assignProp, if_neg]
  intro hc
  rw [List.any_eq_true] at hc
  rcases hc with ⟨e, he, hid⟩
  simp only [decide_eq_true_eq] at hid
  exact absurd (hid ▸ h e he) (lt_irrefl n)

theorem store303_eq_new (s : Sem303) (n : Nat) (t : Str) (k : Knowledge)
    (hfind : s.buckets.find? (fun b => b.1 = t) = none) :
    store303 s n t k = (⟨s.buckets ++ [(t, [(n, k)])]⟩, n + 1) := by
  rw [store303, hfind]

theorem store303_eq_upd (s : Sem303) (n : Nat) (t : Str) (k : Knowledge)
    (b0 : Str × List (Nat × Knowledge))
    (hfind : s.buckets.find? (fun b => b.1 = t) = some b0) :
    store303 s n t k =
      (⟨s.buckets.map (fun b => if b.1 = t then (b.1, assignProp n k b.2) else b)⟩, n + 1) := by
  rw [store303, hfind]

theorem store303_nextId (s : Sem303) (n : Nat) (t : Str) (k : Knowledge) :
    (store303 s n t k).2 = n + 1 := by
  rcases hfind : s.buckets.find? (fun b => b.1 = t) with _ | b0
  · rw [store303_eq_new s n t k hfind]
  · rw [store303_eq_upd s n t k b0 hfind]

theorem store303_self (s : Sem303) (n : Nat) (t : Str) (k : Knowledge)
    (hwf : SemWF s n) :
    ∃ b', lookupBucket (store303 s n t k).1 t = some b' ∧ (n, k) ∈ b' := by
  rcases hfind : s.buckets.find? (fun b => b.1 = t) with _ | b0
  · refine ⟨[(n, k)], ?_, by simp⟩
    rw [store303_eq_new s n t k hfind]
    simp only [lookupBucket]
    rw [List.find?_append, hfind]
    simp
  · have hb0t : b0.1 = t := by simpa using List.find?_some hfind
    refine ⟨b0.2 ++ [(n, k)], ?_, by simp⟩
    rw [store303_eq_upd s n t k b0 hfind]
    simp only [lookupBucket]
    rw [find?_fst_map_eq _ _ (fun x => by split <;> rfl), hfind]
    show some ((if b0.1 = t then (b0.1, assignProp n k b0.2) else b0)).2
      = some (b0.2 ++ [(n, k)])
    rw [if_pos hb0t]
    show some (assignProp n k b0.2) = some (b0.2 ++ [(n, k)])
    rw [assignProp_fresh b0.2 n k (fun e he => hwf b0 (List.mem_of_find?_eq_some hfind) e he)]

theorem store303_other (s : Sem303) (n : Nat) (t t' : Str) (k : Knowledge)
    (hne : t' ≠ t) :
    lookupBucket (store303 s n t k).1 t' = lookupBucket s t' := by
  rcases hfind : s.buckets.find? (fun b => b.1 = t) with _ | b0
  · rw [store303_eq_new s n t k hfind]
    simp only [lookupBucket]
    rw [List.find?_append]
    have hteq : (t = t') = False := by simp [Ne.symm hne]
    have hsingle : List.find? (fun b => b.1 = t') [(t, [(n, k)])] = none := by
      simp [List.find?, hteq]
    rw [hsingle]
    rcases hf2 : s.buckets.find? (fun b => b.1 = t') with _ | b1 <;> rw [hf2] <;> rfl
  · rw [store303_eq_upd s n t k b0 hfind]
    simp only [lookupBucket]
    rw [find?_fst_map_eq _ _ (fun x => by split <;> rfl)]
    rcases hf2 : s.buckets.find? (fun b => b.1 = t') with _ | b1 <;> rw [hf2]
    · rfl
    · have hb1 : b1.1 = t' := by simpa using List.find?_some hf2
      show some ((if b1.1 = t then (b1.1, assignProp n k b1.2) else b1)).2 = some b1.2
      rw [if_neg (by rw [hb1]; exact hne)]

theorem store303_preserve (s : Sem303) (n : Nat) (t t' : Str) (k : Knowledge)
    (hwf : SemWF s n) (b : List (Nat × Knowledge)) (idv : Nat) (k0 : Knowledge)
    (hl : lookupBucket s t' = some b) (hm : (idv, k0) ∈ b) :
    ∃ b', lookupBucket (store303 s n t k).1 t' = some b' ∧ (idv, k0) ∈ b' := by
  by_cases hne : t' = t
  · subst hne
    rcases hlf : s.buckets.find? (fun x => x.1 = t') with _ | b0
    · rw [lookupBucket, hlf] at hl
      cases hl
    · have hb0 : b0.2 = b := by
        rw [lookupBucket, hlf] at hl
        simpa using hl
      have hb0t : b0.1 = t' := by simpa using List.find?_some hlf
      refine ⟨b0.2 ++ [(n, k)], ?_, by rw [hb0]; exact List.mem_append_left _ hm⟩
      rw [store303_eq_upd s n t' k b0 hlf]
      simp only [lookupBucket]
      rw [find?_fst_map_eq _ _ (fun x => by split <;> rfl), hlf]
      show some ((if b0.1 = t' then (b0.1, assignProp n k b0.2) else b0)).2
        = some (b0.2 ++ [(n, k)])
      rw [if_pos hb0t]
      show some (assignProp n k b0.2) = some (b0.2 ++ [(n, k)])
      rw [assignProp_fresh b0.2 n k (fun e he => hwf b0 (List.mem_of_find?_eq_some hlf) e he)]
  · rw [store303_other s n t t' k hne, hl]
    exact ⟨b, rfl, hm⟩

theorem store303_WF (s : Sem303) (n : Nat) (t : Str) (k : Knowledge)
    (hwf : SemWF s n) : SemWF (store303 s n t k).1 (n + 1) := by
  rcases hfind : s.buckets.find? (fun b => b.1 = t) with _ | b0
  · rw [store303_eq_new s n t k hfind]
    intro b hb e he
    rcases List.mem_append.mp hb with hin | hin
    · exact lt_trans (hwf b hin e he) (Nat.lt_succ_self n)
    · rcases List.mem_singleton.mp hin with rfl
      rcases List.mem_singleton.mp he with rfl
      exact Nat.lt_succ_self n
  · rw [store303_eq_upd s n t k b0 hfind]
    intro b hb e he
    rcases List.mem_map.mp hb with ⟨b1, hb1, rfl⟩
    by_cases hb1t : b1.1 = t
    · rw [if_pos hb1t] at he
      rw [show ((b1.1, assignProp n k b1.2) : Str × List (Nat × Knowledge)).2
          = assignProp n k b1.2 from rfl] at he
      rw [assignProp_fresh b1.2 n k (fun e' he' => hwf b1 hb1 e' he')] at he
      rcases List.mem_append.mp he with hin | hin
      · exact lt_trans (hwf b1 hb1 e hin) (Nat.lt_succ_self n)
      · rcases List.mem_singleton.mp hin with rfl
        exact Nat.lt_succ_self n
    · rw [if_neg hb1t] at he
      exact lt_trans (hwf b1 hb1 e he) (Nat.lt_succ_self n)

theorem storeK_sem (t : Str) (k : Knowledge) (st : MdcState) :
    (storeK t k st).semantic = (store303 st.semantic st.nextId t k).1 := rfl

theorem storeK_nextId (t : Str) (k : Knowledge) (st : MdcState) :
    (storeK t k st).nextId = st.nextId + 1 := store303_nextId _ _ _ _

theorem storeK_WF (t : Str) (k : Knowledge) (st : MdcState)
    (hwf : SemWF st.semantic st.nextId) :
    SemWF (storeK t k st).semantic (storeK t k st).nextId := by
  rw [storeK_nextId]
  rw [show (storeK t k st).semantic = (store303 st.semantic st.nextId t k).1 from rfl]
  exact store303_WF st.semantic st.nextId t k hwf

theorem storeK_pres (t : Str) (k : Knowledge) (st : MdcState)
    (hwf : SemWF st.semantic st.nextId) :
    ∀ t' b idv k0, lookupBucket st.semantic t' = some b → (idv, k0) ∈ b →
      ∃ b', lookupBucket (storeK t k st).semantic t' = some b' ∧ (idv, k0) ∈ b' := by
  intro t' b idv k0 hl hm
  rw [storeK_sem]
  exact store303_preserve st.semantic st.nextId t t' k hwf b idv k0 hl hm

theorem storeK_self (t : Str) (k : Knowledge) (st : MdcState)
    (hwf : SemWF st.semantic st.nextId) :
    ∃ b, lookupBucket (storeK t k st).semantic t = some b ∧ (st.nextId, k) ∈ b := by
  rw [storeK_sem]
  exact store303_self st.semantic st.nextId t k hwf

theorem storeK_other (t : Str) (k : Knowledge) (st : MdcState) (t' : Str) (hne : t' ≠ t) :
    lookupBucket (storeK t k st).semantic t' = lookupBucket st.semantic t' := by
  rw [storeK_sem]
  exact store303_other st.semantic st.nextId t t' k hne

theorem consStep_semWF (now : Nat) (st : MdcState) (i : WItem)
    (hwf : SemWF st.semantic st.nextId) :
    SemWF (consStep now st i).semantic (consStep now st i).nextId := by
  rw [consStep]
  by_cases h : 4 ≤ i.importance
  · rw [if_pos h]
    exact storeK_WF _ _ _ hwf
  · rw [if_neg h]
    exact hwf

theorem consFold (now : Nat) (items : List WItem) :
    ∀ st : MdcState, SemWF st.semantic st.nextId →
      SemWF (items.foldl (consStep now) st).semantic (items.foldl (consStep now) st).nextId
      ∧ (∀ t b idv k0, lookupBucket st.semantic t = some b → (idv, k0) ∈ b →
          ∃ b', lookupBucket (items.foldl (consStep now) st).semantic t = some b'
            ∧ (idv, k0) ∈ b')
      ∧ (∀ i ∈ items, 4 ≤ i.importance →
          ∃ b, lookupBucket (items.foldl (consStep now) st).semantic i.topic = some b
            ∧ ∃ e ∈ b, (e : Nat × Knowledge).2 = consKnow now i)
      ∧ (∀ t, (∀ i ∈ items, i.topic = t → i.importance < 4) →
          lookupBucket (items.foldl (consStep now) st).semantic t
            = lookupBucket st.semantic t) := by
  induction items with
  | nil =>
    intro st hwf
    exact ⟨hwf, fun t b idv k0 hl hm => ⟨b, hl, hm⟩, fun i hi => absurd hi (by simp),
      fun t _ => rfl⟩
  | cons i rest ih =>
    intro st hwf
    simp only [List.foldl_cons]
    by_cases himp : 4 ≤ i.importance
    · have hstep : consStep now st i = storeK i.topic (consKnow now i) st := by
        rw [consStep, if_pos himp]
      have hwf1 : SemWF (consStep now st i).semantic (consStep now st i).nextId := by
        rw [hstep]
        exact storeK_WF _ _ _ hwf
      obtain ⟨ihwf, ihpres, ihnew, ihsame⟩ := ih (consStep now st i) hwf1
      refine ⟨ihwf, ?_, ?_, ?_⟩
      · intro t b idv k0 hl hm
        have hstep1 : ∃ b', lookupBucket (consStep now st i).semantic t = some b'
            ∧ (idv, k0) ∈ b' := by
          rw [hstep]
          exact storeK_pres _ _ _ hwf t b idv k0 hl hm
        obtain ⟨b', hl', hm'⟩ := hstep1
        exact ihpres t b' idv k0 hl' hm'
      · intro j hj himpj
        rcases List.mem_cons.mp hj with rfl | hjr
        · have hself : ∃ b', lookupBucket (consStep now st j).semantic j.topic = some b'
              ∧ (st.nextId, consKnow now j) ∈ b' := by
            rw [hstep]
            exact storeK_self _ _ _ hwf
          obtain ⟨b', hl', hm'⟩ := hself
          obtain ⟨b'', hl'', hm''⟩ := ihpres j.topic b' st.nextId (consKnow now j) hl' hm'
          exact ⟨b'', hl'', ⟨(st.nextId, consKnow now j), hm'', rfl⟩⟩
        · exact ihnew j hjr himpj
      · intro t hnone
        have hit : i.topic ≠ t := by
          intro hc
          exact absurd himp (not_le.mpr (hnone i (by simp) hc))
        rw [ihsame t (fun j hj => hnone j (by simp [hj]))]
        rw [hstep]
        exact storeK_other _ _ _ _ (Ne.symm hit)
    · have hstep : consStep now st i = st := by
        rw [consStep, if_neg himp]
      rw [hstep]
      obtain ⟨ihwf, ihpres, ihnew, ihsame⟩ := ih st hwf
      refine ⟨ihwf, ihpres, ?_, ?_⟩
      · intro j hj himpj
        rcases List.mem_cons.mp hj with rfl | hjr
        · exact absurd himpj himp
        · exact ihnew j hjr himpj
      · intro t hnone
        exact ihsame t (fun j hj => hnone j (by simp [hj]))

theorem consSummaryStep_sem (now : Nat) (st : MdcState) :
    (consSummaryStep now st).semantic = st.semantic
    ∧ (consSummaryStep now st).nextId = st.nextId
    ∧ getCtx (consSummaryStep now st) = getCtx st := by
  simp only [consSummaryStep]
  split <;> exact ⟨rfl, rfl, rfl⟩

/-- **C2**. After `consolidateMemory()`, every working-context item with
importance ≥ 4 has been written into the semantic store under its topic,
with content equal to the item's details, source `"short_term_memory"`,
and importance given by the claim's mapping (≥5 → "high", ≥3 → "medium",
else "low" — which on the stored domain coincides with the code's ≥5 →
"high", else "medium"); topics all of whose items have importance < 4 are
left untouched. -/
theorem C2_consolidateMemory (now : Nat) (st : MdcState)
    (hwf : SemWF st.semantic st.nextId) :
    (∀ item ∈ wcOf st, 4 ≤ item.importance →
      ∃ b, lookupBucket (consolidateMemory now st).2.semantic item.topic = some b
        ∧ ∃ e ∈ b, (e : Nat × Knowledge).2.content = item.details
            ∧ e.2.source = "short_term_memory".data
            ∧ e.2.importance = claimImpMap item.importance)
    ∧ (∀ t : Str, (∀ item ∈ wcOf st, item.topic = t → item.importance < 4) →
        lookupBucket (consolidateMemory now st).2.semantic t = lookupBucket st.semantic t) := by
  obtain ⟨hsem, hnid, _⟩ := consSummaryStep_sem now st
  have hc : (consolidateMemory now st).2
      = (wcOf st).foldl (consStep now) (consSummaryStep now st) := rfl
  rw [hc]
  have hwf1 : SemWF (consSummaryStep now st).semantic (consSummaryStep now st).nextId := by
    rw [hsem, hnid]
    exact hwf
  obtain ⟨_, _, hnew, hsame⟩ := consFold now (wcOf st) (consSummaryStep now st) hwf1
  constructor
  · intro item hitem himp
    obtain ⟨b, hb, e, he, heq⟩ := hnew item hitem himp
    refine ⟨b, hb, e, he, ?_, ?_, ?_⟩ <;> rw [heq]
    · rfl
    · rfl
    · show consImportance item.importance = claimImpMap item.importance
      rw [consImportance, claimImpMap]
      by_cases h5 : 5 ≤ item.importance
      · rw [if_pos h5, if_pos h5]
      · rw [if_neg h5, if_neg h5, if_pos (by omega)]
  · intro t ht
    rw [hsame t ht, hsem]

/-- Witness for `C2_consolidateMemory`: the scenario
`addWorkingContext({topic:"goal", details:"ship v1", importance:5})` then
`consolidateMemory()`; the final conjunct checks the stored entry
concretely ("ship v1" / "high"). -/
theorem C2_consolidateMemory_witness :
    SemWF stC2.semantic stC2.nextId
    ∧ ((∀ item ∈ wcOf stC2, 4 ≤ item.importance →
      ∃ b, lookupBucket (consolidateMemory 7 stC2).2.semantic item.topic = some b
        ∧ ∃ e ∈ b, (e : Nat × Knowledge).2.content = item.details
            ∧ e.2.source = "short_term_memory".data
            ∧ e.2.importance = claimImpMap item.importance)
    ∧ (∀ t : Str, (∀ item ∈ wcOf stC2, item.topic = t → item.importance < 4) →
        lookupBucket (consolidateMemory 7 stC2).2.semantic t = lookupBucket stC2.semantic t))
    ∧ lookupBucket (consolidateMemory 7 stC2).2.semantic ("goal".data)
        = some [(0, { category := "working_context".data, content := "ship v1".data,
                      importance := "high".data, source := "short_term_memory".data,
                      timestamp := 7 })] :=
  ⟨by intro b hb e he; simp [stC2] at hb,
   C2_consolidateMemory 7 stC2 (by intro b hb e he; simp [stC2] at hb),
   by decide⟩

theorem extractOne_skip (now : Nat) (acc : MdcState) (c : Conv)
    (h : (c.role = "system".data || c.content.isEmpty) = true) :
    extractOne now acc c = acc := by
  rw [extractOne, if_pos h]

theorem extractOne_eq (now : Nat) (acc : MdcState) (c : Conv)
    (h : (c.role = "system".data || c.content.isEmpty) = false) :
    extractOne now acc c =
      (if errVocab c.content then
        storeK ("troubleshooting".data) (errKnow now c)
          (if codeVocab c.content then storeK ("code_patterns".data) (codeKnow now c) acc
           else acc)
       else
        (if codeVocab c.content then storeK ("code_patterns".data) (codeKnow now c) acc
         else acc)) := by
  rw [extractOne, if_neg (by simp [h])]

theorem extractOne_WF (now : Nat) (acc : MdcState) (c : Conv)
    (hwf : SemWF acc.semantic acc.nextId) :
    SemWF (extractOne now acc c).semantic (extractOne now acc c).nextId := by
  by_cases hskip : (c.role = "system".data || c.content.isEmpty) = true
  · rw [extractOne_skip now acc c hskip]
    exact hwf
  · rw [extractOne_eq now acc c (by simpa using hskip)]
    by_cases hcode : codeVocab c.content <;> by_cases herr : errVocab c.content <;>
      simp only [hcode, herr, if_true, if_false, Bool.false_eq_true] <;>
      first
        | exact hwf
        | exact storeK_WF _ _ _ hwf
        | exact storeK_WF _ _ _ (storeK_WF _ _ _ hwf)

theorem extractOne_pres (now : Nat) (acc : MdcState) (c : Conv)
    (hwf : SemWF acc.semantic acc.nextId) :
    ∀ t b idv k0, lookupBucket acc.semantic t = some b → (idv, k0) ∈ b →
      ∃ b', lookupBucket (extractOne now acc c).semantic t = some b' ∧ (idv, k0) ∈ b' := by
  intro t b idv k0 hl hm
  by_cases hskip : (c.role = "system".data || c.content.isEmpty) = true
  · rw [extractOne_skip now acc c hskip]
    exact ⟨b, hl, hm⟩
  · rw [extractOne_eq now acc c (by simpa using hskip)]
    by_cases hcode : codeVocab c.content <;> by_cases herr : errVocab c.content <;>
      simp only [hcode, herr, if_true, if_false, Bool.false_eq_true]
    · obtain ⟨b1, hl1, hm1⟩ := storeK_pres _ _ _ hwf t b idv k0 hl hm
      exact storeK_pres _ _ _ (storeK_WF _ _ _ hwf) t b1 idv k0 hl1 hm1
    · exact storeK_pres _ _ _ hwf t b idv k0 hl hm
    · exact storeK_pres _ _ _ hwf t b idv k0 hl hm
    · exact ⟨b, hl, hm⟩

theorem extractOne_code (now : Nat) (acc : MdcState) (c : Conv)
    (hwf : SemWF acc.semantic acc.nextId)
    (hskip : (c.role = "system".data || c.content.isEmpty) = false)
    (hcode : codeVocab c.content = true) :
    ∃ b, lookupBucket (extractOne now acc c).semantic ("code_patterns".data) = some b
      ∧ ∃ e ∈ b, (e : Nat × Knowledge).2 = codeKnow now c := by
  rw [extractOne_eq now acc c hskip]
  simp only [hcode, if_true]
  obtain ⟨b1, hl1, hm1⟩ := storeK_self ("code_patterns".data) (codeKnow now c) acc hwf
  by_cases herr : errVocab c.content
  · simp only [herr, if_true]
    obtain ⟨b2, hl2, hm2⟩ := storeK_pres _ _ _ (storeK_WF _ _ _ hwf) _ b1 _ _ hl1 hm1
    exact ⟨b2, hl2, ⟨(acc.nextId, codeKnow now c), hm2, rfl⟩⟩
  · simp only [herr, Bool.false_eq_true, if_false]
    exact ⟨b1, hl1, ⟨(acc.nextId, codeKnow now c), hm1, rfl⟩⟩

theorem extractOne_err (now : Nat) (acc : MdcState) (c : Conv)
    (hwf : SemWF acc.semantic acc.nextId)
    (hskip : (c.role = "system".data || c.content.isEmpty) = false)
    (herr : errVocab c.content = true) :
    ∃ b, lookupBucket (extractOne now acc c).semantic ("troubleshooting".data) = some b
      ∧ ∃ e ∈ b, (e : Nat × Knowledge).2 = errKnow now c := by
  rw [extractOne_eq now acc c hskip]
  simp only [herr, if_true]
  by_cases hcode : codeVocab c.content <;> simp only [hcode, if_true, Bool.false_eq_true, if_false]
  · obtain ⟨b1, hl1, hm1⟩ :=
      storeK_self ("troubleshooting".data) (errKnow now c) _ (storeK_WF _ _ _ hwf)
    exact ⟨b1, hl1, ⟨_, hm1, rfl⟩⟩
  · obtain ⟨b1, hl1, hm1⟩ := storeK_self ("troubleshooting".data) (errKnow now c) acc hwf
    exact ⟨b1, hl1, ⟨_, hm1, rfl⟩⟩

theorem extractFold (now : Nat) (convs : List Conv) :
    ∀ st : MdcState, SemWF st.semantic st.nextId →
      SemWF (convs.foldl (extractOne now) st).semantic (convs.foldl (extractOne now) st).nextId
      ∧ (∀ t b idv k0, lookupBucket st.semantic t = some b → (idv, k0) ∈ b →
          ∃ b', lookupBucket (convs.foldl (extractOne now) st).semantic t = some b'
            ∧ (idv, k0) ∈ b')
      ∧ (∀ c ∈ convs, (c.role = "system".data || c.content.isEmpty) = false →
          (codeVocab c.content = true →
            ∃ b, lookupBucket (convs.foldl (extractOne now) st).semantic
                ("code_patterns".data) = some b
              ∧ ∃ e ∈ b, (e : Nat × Knowledge).2 = codeKnow now c)
          ∧ (errVocab c.content = true →
            ∃ b, lookupBucket (convs.foldl (extractOne now) st).semantic
                ("troubleshooting".data) = some b
              ∧ ∃ e ∈ b, (e : Nat × Knowledge).2 = errKnow now c)) := by
  induction convs with
  | nil =>
    intro st hwf
    exact ⟨hwf, fun t b idv k0 hl hm => ⟨b, hl, hm⟩, fun c hc => absurd hc (by simp)⟩
  | cons c rest ih =>
    intro st hwf
    simp only [List.foldl_cons]
    have hwf1 := extractOne_WF now st c hwf
    obtain ⟨ihwf, ihpres, ihnew⟩ := ih (extractOne now st c) hwf1
    refine ⟨ihwf, ?_, ?_⟩
    · intro t b idv k0 hl hm
      obtain ⟨b1, hl1, hm1⟩ := extractOne_pres now st c hwf t b idv k0 hl hm
      exact ihpres t b1 idv k0 hl1 hm1
    · intro d hd hdskip
      rcases List.mem_cons.mp hd with rfl | hdr
      · constructor
        · intro hcode
          obtain ⟨b1, hl1, e, he, heq⟩ := extractOne_code now st d hwf hdskip hcode
          obtain ⟨b2, hl2, hm2⟩ := ihpres _ b1 e.1 e.2 hl1 (by
            rcases e with ⟨e1, e2⟩
            exact he)
          exact ⟨b2, hl2, ⟨(e.1, e.2), hm2, heq⟩⟩
        · intro herr
          obtain ⟨b1, hl1, e, he, heq⟩ := extractOne_err now st d hwf hdskip herr
          obtain ⟨b2, hl2, hm2⟩ := ihpres _ b1 e.1 e.2 hl1 (by
            rcases e with ⟨e1, e2⟩
            exact he)
          exact ⟨b2, hl2, ⟨(e.1, e.2), hm2, heq⟩⟩
      · exact ihnew d hdr hdskip

/-- **C6** (amended). `extractKnowledge()` scans the non-system,
non-empty entries among the 20 most recent conversation entries (not the
20 most recent non-system entries); for every scanned entry containing
code vocabulary it writes a `code_patterns` entry with importance
"medium", and for every scanned entry containing error vocabulary a
`troubleshooting` entry with importance "high"; a single turn containing
both (such as "there is a bug in the function") produces both. -/
theorem C6_extractKnowledge_amended (now : Nat) (st : MdcState)
    (hwf : SemWF st.semantic st.nextId) :
    ∀ c ∈ recentConvs 20 st.episodic,
      (c.role = "system".data || c.content.isEmpty) = false →
      (codeVocab c.content = true →
        ∃ b, lookupBucket (extractKnowledge now st).2.semantic ("code_patterns".data) = some b
          ∧ ∃ e ∈ b, (e : Nat × Knowledge).2 = codeKnow now c
              ∧ (e : Nat × Knowledge).2.importance = "medium".data)
      ∧ (errVocab c.content = true →
        ∃ b, lookupBucket (extractKnowledge now st).2.semantic ("troubleshooting".data) = some b
          ∧ ∃ e ∈ b, (e : Nat × Knowledge).2 = errKnow now c
              ∧ (e : Nat × Knowledge).2.importance = "high".data) := by
  intro c hc hskip
  have hne : (recentConvs 20 st.episodic).isEmpty = false := by
    rcases hrec : recentConvs 20 st.episodic with _ | ⟨d, ds⟩
    · rw [hrec] at hc
      cases hc
    · rfl
  have hext : (extractKnowledge now st).2
      = (recentConvs 20 st.episodic).foldl (extractOne now) st := by
    rw [extractKnowledge]
    rw [if_neg (by simp [hne])]
  rw [hext]
  obtain ⟨_, _, hnew⟩ := extractFold now (recentConvs 20 st.episodic) st hwf
  obtain ⟨hcode, herr⟩ := hnew c hc hskip
  constructor
  · intro hcv
    obtain ⟨b, hl, e, he, heq⟩ := hcode hcv
    exact ⟨b, hl, e, he, heq, by rw [heq]; rfl⟩
  · intro hev
    obtain ⟨b, hl, e, he, heq⟩ := herr hev
    exact ⟨b, hl, e, he, heq, by rw [heq]; rfl⟩

/-- **C6** (counterexample to the claim as stated). With 21 stored
conversations where the most recent is a system turn and the oldest (a
user turn containing "bug") is therefore only the 20th most recent
non-system entry, the claim's scan set contains that turn, yet
`extractKnowledge()` — which takes the 20 most recent entries of any role
before skipping system ones — never scans it and writes no
`troubleshooting` entry at all. -/
theorem C6_extractKnowledge_counterexample :
    (∃ e ∈ claimScan epC6, errVocab e.content = true)
    ∧ lookupBucket (extractKnowledge 99 stC6).2.semantic ("troubleshooting".data) = none := by
  constructor
  · exact ⟨convBug, by decide, by decide⟩
  · decide

/-- Witness for `C6_extractKnowledge_amended`: the single stored user
conversation "there is a bug in the function" yields both a
`code_patterns` and a `troubleshooting` entry; the final conjuncts check
the stored buckets concretely. -/
theorem C6_extractKnowledge_amended_witness :
    SemWF stC6w.semantic stC6w.nextId
    ∧ (∀ c ∈ recentConvs 20 stC6w.episodic,
      (c.role = "system".data || c.content.isEmpty) = false →
      (codeVocab c.content = true →
        ∃ b, lookupBucket (extractKnowledge 9 stC6w).2.semantic ("code_patterns".data) = some b
          ∧ ∃ e ∈ b, (e : Nat × Knowledge).2 = codeKnow 9 c
              ∧ (e : Nat × Knowledge).2.importance = "medium".data)
      ∧ (errVocab c.content = true →
        ∃ b, lookupBucket (extractKnowledge 9 stC6w).2.semantic ("troubleshooting".data) = some b
          ∧ ∃ e ∈ b, (e : Nat × Knowledge).2 = errKnow 9 c
              ∧ (e : Nat × Knowledge).2.importance = "high".data))
    ∧ (lookupBucket (extractKnowledge 9 stC6w).2.semantic ("code_patterns".data)).isSome = true
    ∧ (lookupBucket (extractKnowledge 9 stC6w).2.semantic ("troubleshooting".data)).isSome
        = true :=
  ⟨by intro b hb e he; simp [stC6w] at hb,
   C6_extractKnowledge_amended 9 stC6w (by intro b hb e he; simp [stC6w] at hb),
   by decide, by decide⟩

theorem search303Bucket_len (q t : Str) (lim : Nat) :
    ∀ (bucket : List (Nat × Knowledge)) (acc : List Hit), acc.length < lim →
      (search303Bucket q t lim bucket acc).length ≤ lim := by
  intro bucket
  induction bucket with
  | nil =>
    intro acc hacc
    exact Nat.le_of_lt hacc
  | cons e rest ih =>
    intro acc hacc
    rcases e with ⟨eid, k⟩
    rw [search303Bucket]
    by_cases hm : hitMatch q t k
    · rw [if_pos hm]
      by_cases hlim : lim ≤ (acc ++ [Hit.mk t k]).length
      · rw [if_pos hlim]
        simp only [List.length_append, List.length_cons, List.length_nil]
        omega
      · rw [if_neg hlim]
        exact ih _ (by omega)
    · rw [if_neg hm]
      exact ih acc hacc

theorem search303Go_len (q : Str) (lim : Nat) :
    ∀ (buckets : List (Str × List (Nat × Knowledge))) (acc : List Hit), acc.length < lim →
      (search303Go q lim buckets acc).length ≤ lim := by
  intro buckets
  induction buckets with
  | nil =>
    intro acc hacc
    exact Nat.le_of_lt hacc
  | cons b rest ih =>
    intro acc hacc
    rcases b with ⟨t, bucket⟩
    rw [search303Go]
    by_cases hlim : lim ≤ (search303Bucket q t lim bucket acc).length
    · rw [if_pos hlim]
      exact search303Bucket_len q t lim bucket acc hacc
    · rw [if_neg hlim]
      exact ih _ (by omega)

theorem searchKnowledge303_len (s : Sem303) (q : Str) (lim : Nat) (h : 0 < lim) :
    (searchKnowledge303 s q lim).length ≤ lim :=
  search303Go_len q lim s.buckets [] (by simpa using h)

theorem getCtx_storeCtx_self (st : MdcState) (k : Str) (v : JVal) :
    getCtx (storeCtx st k v) k = some v := by
  rw [storeCtx]
  by_cases hany : st.contexts.any (fun e => e.1 = k)
  · rw [if_pos hany]
    rw [getCtx]
    show ((st.contexts.map (fun e => if e.1 = k then (e.1, v) else e)).find?
      (fun e => e.1 = k)).map Prod.snd = some v
    rw [find?_fst_map_eq _ _ (fun x => by split <;> rfl)]
    rw [List.any_eq_true] at hany
    rcases hany with ⟨e, he, hek⟩
    simp only [decide_eq_true_eq] at hek
    rcases hfind : st.contexts.find? (fun e => e.1 = k) with _ | e0
    · rw [List.find?_eq_none] at hfind
      exact absurd (by simpa using hek) (by simpa using hfind e he)
    · have he0 : e0.1 = k := by simpa using List.find?_some hfind
      rw [hfind]
      show some ((if e0.1 = k then (e0.1, v) else e0)).2 = some v
      rw [if_pos he0]
  · rw [if_neg hany]
    rw [getCtx]
    show ((st.contexts ++ [(k, v)]).find? (fun e => e.1 = k)).map Prod.snd = some v
    rw [List.find?_append]
    have hnone : st.contexts.find? (fun e => e.1 = k) = none := by
      rw [List.find?_eq_none]
      intro e he hp
      rw [Bool.not_eq_true] at hany
      rw [List.any_eq_false] at hany
      exact absurd hp (by simpa using hany e he)
    rw [hnone]
    simp

/-- **C7**. `enrichContext(query)` extracts keywords by lowercasing,
stripping punctuation, splitting on whitespace and keeping only words
longer than 3 characters (this is `keywordsOf`); for each keyword it
includes at most 2 `searchKnowledge` hits, concatenated in keyword order
into `relevantKnowledge`; and the assembled enriched-context object is
stored back under the fixed context key `"enriched_context"`. -/
theorem C7_enrichContext (now : Nat) (st : MdcState) (q : Str) :
    (∀ w ∈ keywordsOf q, 3 < w.length)
    ∧ (∃ contribs : List (List Hit),
        (enrichContext now st q).1.relevantKnowledge = contribs.join
        ∧ contribs.length = (keywordsOf q).length
        ∧ ∀ cl ∈ contribs, cl.length ≤ 2)
    ∧ getCtx (enrichContext now st q).2 ("enriched_context".data)
        = some (JVal.enr (enrichContext now st q).1) := by
  refine ⟨?_, ?_, ?_⟩
  · intro w hw
    have := List.of_mem_filter hw
    simpa using this
  · have hgen : ∀ (kws : List Str) (acc : List Hit),
        ∃ contribs : List (List Hit),
          kws.foldl (fun acc kw =>
            let results := searchKnowledge303 st.semantic kw 2
            if results.isEmpty then acc else acc ++ results) acc = acc ++ contribs.join
          ∧ contribs.length = kws.length
          ∧ ∀ cl ∈ contribs, cl.length ≤ 2 := by
      intro kws
      induction kws with
      | nil =>
        intro acc
        exact ⟨[], by simp, rfl, by simp⟩
      | cons kw kws ih =>
        intro acc
        set res := searchKnowledge303 st.semantic kw 2 with hres
        have hlen : res.length ≤ 2 := searchKnowledge303_len st.semantic kw 2 (by omega)
        by_cases hemp : res.isEmpty
        · obtain ⟨contribs, heq, hlen2, hall⟩ := ih acc
          refine ⟨[] :: contribs, ?_, by simp [hlen2], ?_⟩
          · simp only [List.foldl_cons, List.join]
            rw [← hres]
            rw [if_pos hemp]
            simpa using heq
          · intro cl hcl
            rcases List.mem_cons.mp hcl with rfl | hcl
            · simp
            · exact hall cl hcl
        · obtain ⟨contribs, heq, hlen2, hall⟩ := ih (acc ++ res)
          refine ⟨res :: contribs, ?_, by simp [hlen2], ?_⟩
          · simp only [List.foldl_cons, List.join]
            rw [← hres]
            rw [if_neg hemp]
            rw [heq, List.append_assoc]
            simp
          · intro cl hcl
            rcases List.mem_cons.mp hcl with rfl | hcl
            · exact hlen
            · exact hall cl hcl
    obtain ⟨contribs, heq, hlen2, hall⟩ := hgen (keywordsOf q) []
    refine ⟨contribs, ?_, hlen2, hall⟩
    show ((keywordsOf q).foldl (fun acc kw =>
        let results := searchKnowledge303 st.semantic kw 2
        if results.isEmpty then acc else acc ++ results) []) = contribs.join
    rw [heq]
    simp
  · exact getCtx_storeCtx_self st ("enriched_context".data) _

theorem except_bind_ok {α β : Type} (a : Except Str α) (f : α → Except Str β) (r : β)
    (h : (a >>= f) = Except.ok r) : ∃ x, a = Except.ok x ∧ f x = Except.ok r := by
  cases a with
  | error e => simp [Bind.bind, Except.bind] at h
  | ok x => exact ⟨x, rfl, by simpa [Bind.bind, Except.bind] using h⟩

theorem piBody_ok (api : MemApi) (cb : Option (Str → EnrichedCtx → Except Str Unit))
    (now : Nat) (q : Str) (r : Str) (h : piBody api cb now q = Except.ok r) :
    r = responseText q (enrichContextE api now q).relevantKnowledge.length := by
  rw [piBody] at h
  obtain ⟨x1, h1, h⟩ := except_bind_ok _ _ _ h
  obtain ⟨x2, h2, h⟩ := except_bind_ok _ _ _ h
  obtain ⟨x3, h3, h⟩ := except_bind_ok _ _ _ h
  obtain ⟨x4, h4, h⟩ := except_bind_ok _ _ _ h
  obtain ⟨x5, h5, h⟩ := except_bind_ok _ _ _ h
  obtain ⟨x6, h6, h⟩ := except_bind_ok _ _ _ h
  rcases cb with _ | f
  · simp only [Pure.pure, Except.pure, Except.ok.injEq] at h
    exact h.symm
  · obtain ⟨x7, h7, h⟩ := except_bind_ok _ _ _ h
    simp only [Pure.pure, Except.pure, Except.ok.injEq] at h
    exact h.symm

/-- **C8**. `processInteraction` never propagates an exception: whatever
results or exceptions the memory-system calls produce (quantified by the
oracle `api` and the optional callback), it returns either the
synthesized response string or the generic fallback string. Likewise,
`addWorkingContext` converts any internal fault into a `null` result with
the store unchanged, and otherwise returns the new item's id. -/
theorem C8_processInteraction_total (api : MemApi)
    (cb : Option (Str → EnrichedCtx → Except Str Unit)) (now : Nat) (q : Str) :
    (processInteraction api cb now q = fallbackText q
      ∨ ∃ n, processInteraction api cb now q = responseText q n)
    ∧ (∀ (now2 ridx : Nat) (lim : Int) (topic details : Str) (imp : Int) (exp : Option Int)
        (wc : List WItem),
        addWorkingContext true now2 ridx lim topic details imp exp wc = (none, wc)
        ∧ ∃ id wc', addWorkingContext false now2 ridx lim topic details imp exp wc
            = (some id, wc')) := by
  constructor
  · rw [processInteraction]
    rcases hb : piBody api cb now q with e | r
    · exact Or.inl rfl
    · right
      refine ⟨(enrichContextE api now q).relevantKnowledge.length, ?_⟩
      rw [piBody_ok api cb now q r hb]
  · intro now2 ridx lim topic details imp exp wc
    constructor
    · rw [addWorkingContext, if_pos rfl]
    · rw [addWorkingContext]
      exact ⟨_, _, rfl⟩

theorem tsAsc_total : ∀ a b : Conv, tsAsc a b = false → tsAsc b a = true := by
  intro a b h
  simp only [tsAsc, decide_eq_false_iff_not, not_le] at h
  simp only [tsAsc, decide_eq_true_eq]
  omega

theorem tsAsc_trans : ∀ a b c : Conv, tsAsc a b = true → tsAsc b c = true → tsAsc a c = true := by
  intro a b c h1 h2
  simp only [tsAsc, decide_eq_true_eq] at h1 h2 ⊢
  omega

theorem cntDesc_total : ∀ a b : Str × Nat, cntDesc a b = false → cntDesc b a = true := by
  intro a b h
  simp only [cntDesc, decide_eq_false_iff_not, not_le] at h
  simp only [cntDesc, decide_eq_true_eq]
  omega

theorem cntDesc_trans :
    ∀ a b c : Str × Nat, cntDesc a b = true → cntDesc b c = true → cntDesc a c = true := by
  intro a b c h1 h2
  simp only [cntDesc, decide_eq_true_eq] at h1 h2 ⊢
  omega

theorem getLastD_mem {α : Type} : ∀ (l : List α) (d : α), l ≠ [] → l.getLastD d ∈ l := by
  intro l
  induction l with
  | nil => intro d h; exact absurd rfl h
  | cons a t ih =>
    intro d _
    cases t with
    | nil => simp
    | cons b t' =>
      rw [List.getLastD_cons]
      exact List.mem_cons_of_mem a (ih d (by simp))

theorem pairwise_getLastD {α : Type} (R : α → α → Bool) (hrefl : ∀ a, R a a = true) :
    ∀ (l : List α) (d : α), l.Pairwise (fun a b => R a b = true) →
      ∀ x ∈ l, R x (l.getLastD d) = true := by
  intro l
  induction l with
  | nil => intro d _ x hx; cases hx
  | cons a t ih =>
    intro d hp x hx
    cases t with
    | nil =>
      rcases List.mem_singleton.mp hx with rfl
      exact hrefl x
    | cons b t' =>
      rw [List.getLastD_cons]
      rcases List.mem_cons.mp hx with rfl | hx'
      · exact (List.pairwise_cons.mp hp).1 _
          (getLastD_mem (b :: t') d (by simp))
      · exact ih d (List.pairwise_cons.mp hp).2 x hx'

theorem bumpCount_keys (acc : List (Str × Nat)) (k : Str) (e : Str × Nat)
    (he : e ∈ bumpCount acc k) : e.1 = k ∨ ∃ e' ∈ acc, e.1 = e'.1 := by
  rw [bumpCount] at he
  by_cases hany : acc.any (fun x => x.1 = k)
  · rw [if_pos hany] at he
    rcases List.mem_map.mp he with ⟨e', he', rfl⟩
    right
    refine ⟨e', he', ?_⟩
    split <;> rfl
  · rw [if_neg hany] at he
    rcases List.mem_append.mp he with hin | hin
    · exact Or.inr ⟨e, hin, rfl⟩
    · rcases List.mem_singleton.mp hin with rfl
      exact Or.inl rfl

theorem foldCounts_prop (P : Str → Prop)
    (hP : ∀ w : Str, (3 < w.length && !(commonWords.contains w)) = true → P w) :
    ∀ (ws : List Str) (acc : List (Str × Nat)), (∀ e ∈ acc, P e.1) →
      ∀ e ∈ ws.foldl (fun acc w =>
          if 3 < w.length && !(commonWords.contains w) then bumpCount acc w else acc) acc,
        P e.1 := by
  intro ws
  induction ws with
  | nil => intro acc hacc e he; exact hacc e he
  | cons w ws ih =>
    intro acc hacc e he
    simp only [List.foldl_cons] at he
    by_cases hc : (3 < w.length && !(commonWords.contains w)) = true
    · rw [if_pos hc] at he
      refine ih (bumpCount acc w) ?_ e he
      intro e' he'
      rcases bumpCount_keys acc w e' he' with hk | ⟨e'', he'', hk⟩
      · rw [hk]; exact hP w hc
      · rw [hk]; exact hacc e'' he''
    · rw [if_neg hc] at he
      exact ih acc hacc e he

/-- **C9**. For every non-empty conversation list,
`summarizeConversations` renders exactly the template containing the
total message count, the per-role counts (first-occurrence order), the
ISO timestamps of an earliest and a latest entry, and the topic words;
the topics are the first components of at most five counter entries
sorted by descending frequency, each a word longer than 3 characters and
not a stop word. The function is pure, so the same list always yields
the identical string. -/
theorem C9_summarizeConversations (convs : List Conv) (hne : convs ≠ []) :
    ∃ (cFirst cLast : Conv) (entries : List (Str × Nat)),
      summarizeConversations convs
        = renderSummary convs.length (isoString cFirst.timestamp) (isoString cLast.timestamp)
            (roleCounts convs)
            (extractTopics (List.intercalate (" ".data) ((sortBy tsAsc convs).map Conv.content)))
      ∧ cFirst ∈ convs ∧ cLast ∈ convs
      ∧ (∀ c ∈ convs, cFirst.timestamp ≤ c.timestamp ∧ c.timestamp ≤ cLast.timestamp)
      ∧ extractTopics (List.intercalate (" ".data) ((sortBy tsAsc convs).map Conv.content))
          = entries.map Prod.fst
      ∧ SortedB cntDesc entries
      ∧ entries.length ≤ 5
      ∧ (∀ e ∈ entries, 3 < e.1.length ∧ e.1 ∉ commonWords) := by
  have hsne : sortBy tsAsc convs ≠ [] := by
    intro hc
    have hl := sortBy_length tsAsc convs
    rw [hc] at hl
    exact hne (List.eq_nil_of_length_eq_zero hl.symm)
  have hsorted := sortBy_sorted tsAsc tsAsc_total tsAsc_trans convs
  refine ⟨(sortBy tsAsc convs).headD dummyConv, (sortBy tsAsc convs).getLastD dummyConv,
    (sortBy cntDesc ((splitWS ((lowStr (List.intercalate (" ".data)
        ((sortBy tsAsc convs).map Conv.content))).filter
        (fun c => isWordChar c || isWS c))).foldl (fun (acc : List (Str × Nat)) (w : Str) =>
          if decide (3 < w.length) && !(commonWords.contains w) then bumpCount acc w else acc)
        [])).take 5,
    ?_, ?_, ?_, ?_, rfl, ?_, ?_, ?_⟩
  · rw [summarizeConversations, if_neg (by simpa [List.isEmpty_iff] using hne)]
  · have h1 : (sortBy tsAsc convs).headD dummyConv ∈ sortBy tsAsc convs := by
      rcases hs : sortBy tsAsc convs with _ | ⟨c0, rest⟩
      · exact absurd hs hsne
      · simp
    exact (sortBy_mem tsAsc convs _).mp h1
  · have h1 : (sortBy tsAsc convs).getLastD dummyConv ∈ sortBy tsAsc convs :=
      getLastD_mem _ dummyConv hsne
    exact (sortBy_mem tsAsc convs _).mp h1
  · intro c hc
    have hc' : c ∈ sortBy tsAsc convs := (sortBy_mem tsAsc convs c).mpr hc
    constructor
    · rcases hs : sortBy tsAsc convs with _ | ⟨c0, rest⟩
      · exact absurd hs hsne
      · rw [hs] at hc'
        have hsorted2 := hsorted
        rw [hs] at hsorted2
        rcases List.mem_cons.mp hc' with rfl | hcr
        · simp
        · have := (List.pairwise_cons.mp hsorted2).1 c hcr
          simpa [tsAsc, List.headD] using this
    · have := pairwise_getLastD tsAsc (fun a => by simp [tsAsc])
        (sortBy tsAsc convs) dummyConv hsorted c hc'
      simpa [tsAsc] using this
  · exact (sortBy_sorted cntDesc cntDesc_total cntDesc_trans _).sublist
      (List.take_sublist _ _)
  · exact List.length_take_le _ _
  · intro e he
    have he1 : e ∈ sortBy cntDesc _ := (List.take_sublist _ _).mem he
    have he2 := (sortBy_mem cntDesc _ e).mp he1
    refine foldCounts_prop (fun w => 3 < w.length ∧ w ∉ commonWords) ?_ _ [] (by simp) e he2
    intro w hw
    simp only [Bool.and_eq_true, decide_eq_true_eq, Bool.not_eq_true'] at hw
    refine ⟨hw.1, ?_⟩
    intro hmem
    rw [← List.elem_iff] at hmem
    rw [show commonWords.contains w = commonWords.elem w from rfl] at hw
    rw [hmem] at hw
    cases hw.2

set_option maxRecDepth 4000 in
/-- Witness for `C9_summarizeConversations` on two concrete turns; the
final conjunct pins the exact rendered summary string. -/
theorem C9_summarizeConversations_witness :
    convsC9 ≠ []
    ∧ (∃ (cFirst cLast : Conv) (entries : List (Str × Nat)),
      summarizeConversations convsC9
        = renderSummary convsC9.length (isoString cFirst.timestamp) (isoString cLast.timestamp)
            (roleCounts convsC9)
            (extractTopics (List.intercalate (" ".data)
              ((sortBy tsAsc convsC9).map Conv.content)))
      ∧ cFirst ∈ convsC9 ∧ cLast ∈ convsC9
      ∧ (∀ c ∈ convsC9, cFirst.timestamp ≤ c.timestamp ∧ c.timestamp ≤ cLast.timestamp)
      ∧ extractTopics (List.intercalate (" ".data) ((sortBy tsAsc convsC9).map Conv.content))
          = entries.map Prod.fst
      ∧ SortedB cntDesc entries
      ∧ entries.length ≤ 5
      ∧ (∀ e ∈ entries, 3 < e.1.length ∧ e.1 ∉ commonWords))
    ∧ summarizeConversations convsC9
        = ("Conversation with 2 messages from 1970-01-01T00:00:00.002Z to 1970-01-01T00:00:00.005Z. \n          Message counts by role: user: 1, assistant: 1. \n          Main topics: hello, alpha, beta, world.").data :=
  ⟨by simp [convsC9],
   C9_summarizeConversations convsC9 (by simp [convsC9]),
   by decide⟩
